import Mathlib

/-!
Verification of the storm data-access layer (`src/dal.cpp`, `include/dal.h`).

The development shallowly embeds the mapping machinery of the library:

* raw memory of fixed-width integer fields is modelled as little-endian
  lists of bytes (`Nat` values below 256), matching the `memcpy`-based
  value transport of the C++ code on a little-endian host (the code
  itself documents that it only works on little-endian machines);
* `DbValue` encoding, record field registries, SQL parameter binding,
  and the CRUD operations of `DbService` are modelled as pure functions
  over an explicit store state;
* the SQLite store is an external collaborator; its documented protocol
  (insert with rowid auto-assignment, key uniqueness, foreign-key
  enforcement when the pragma is on, natural row order) is modelled
  directly on lists of rows;
* `assert(...)` statements of the C++ code are modelled as raised
  errors, mirroring the specification's reading of them (e.g. the
  registration error of `SavePrototype`).
-/

namespace Storm

/-! ## Little-endian byte lists -/

/-- Value of a little-endian byte list. -/
def leVal : List Nat → Nat
  | [] => 0
  | b :: bs => b + 256 * leVal bs

/-- Little-endian byte list of width `n` for a natural number. -/
def natToBytes : Nat → Nat → List Nat
  | 0, _ => []
  | n + 1, v => v % 256 :: natToBytes n (v / 256)

theorem leVal_append (xs ys : List Nat) :
    leVal (xs ++ ys) = leVal xs + 256 ^ xs.length * leVal ys := by
  induction xs with
  | nil => simp [leVal]
  | cons b bs ih =>
    simp only [List.cons_append, leVal, List.length_cons]
    rw [show bs.append ys = bs ++ ys from rfl, ih]
    ring

theorem leVal_replicate_zero (k : Nat) : leVal (List.replicate k 0) = 0 := by
  induction k with
  | zero => rfl
  | succ n ih => simp [List.replicate, leVal, ih]

theorem leVal_replicate_255 (k : Nat) :
    leVal (List.replicate k 255) = 256 ^ k - 1 := by
  induction k with
  | zero => rfl
  | succ n ih =>
    simp only [List.replicate, leVal, ih, pow_succ]
    have h : 1 ≤ 256 ^ n := Nat.one_le_pow _ _ (by norm_num)
    omega

theorem leVal_lt (bs : List Nat) (hb : ∀ b ∈ bs, b < 256) :
    leVal bs < 256 ^ bs.length := by
  induction bs with
  | nil => simp [leVal]
  | cons b t ih =>
    have hb0 : b < 256 := hb b (by simp)
    have ht : leVal t < 256 ^ t.length := ih (fun x hx => hb x (by simp [hx]))
    simp only [leVal, List.length_cons, pow_succ]
    nlinarith

theorem natToBytes_length (n v : Nat) : (natToBytes n v).length = n := by
  induction n generalizing v with
  | zero => rfl
  | succ m ih => simp [natToBytes, ih]

theorem natToBytes_lt (n v : Nat) : ∀ b ∈ natToBytes n v, b < 256 := by
  induction n generalizing v with
  | zero => intro b hb; simp [natToBytes] at hb
  | succ m ih =>
    intro b hb
    simp only [natToBytes, List.mem_cons] at hb
    rcases hb with h | h
    · omega
    · exact ih _ b h

theorem natToBytes_leVal (bs : List Nat) (hb : ∀ b ∈ bs, b < 256) :
    natToBytes bs.length (leVal bs) = bs := by
  induction bs with
  | nil => rfl
  | cons b t ih =>
    have hb0 : b < 256 := hb b (by simp)
    have hmod : (b + 256 * leVal t) % 256 = b := by omega
    have hdiv : (b + 256 * leVal t) / 256 = leVal t := by omega
    simp only [List.length_cons, natToBytes, leVal, hmod, hdiv]
    rw [ih (fun x hx => hb x (by simp [hx]))]

theorem leVal_natToBytes (n v : Nat) : leVal (natToBytes n v) = v % 256 ^ n := by
  induction n generalizing v with
  | zero => simp [natToBytes, leVal, Nat.mod_one]
  | succ m ih =>
    simp only [natToBytes, leVal, ih]
    conv_rhs => rw [pow_succ, mul_comm]
    rw [Nat.mod_mul]

theorem natToBytes_take (w n v : Nat) (h : w ≤ n) :
    (natToBytes n v).take w = natToBytes w v := by
  induction w generalizing n v with
  | zero => simp [natToBytes]
  | succ m ih =>
    cases n with
    | zero => omega
    | succ k =>
      simp only [natToBytes, List.take_succ_cons]
      rw [ih k _ (by omega)]

/-! ## Canonical 8-byte signed integers -/

/-- Read an 8-byte little-endian slot as a signed 64-bit two's-complement
integer, as `*(int64_t*)value` does on a little-endian host. -/
def bytesToInt64 (bs : List Nat) : Int :=
  if leVal bs < 2 ^ 63 then (leVal bs : Int) else (leVal bs : Int) - 2 ^ 64

/-- Little-endian bytes of the low 64 bits of an integer, as written by
`memcpy` from an `int64_t`. -/
def int64ToBytes (v : Int) : List Nat :=
  natToBytes 8 (v % (2 ^ 64)).toNat

/-- Signed two's-complement interpretation of a `w`-byte little-endian
integer field (the mathematical value of the original narrow field). -/
def bytesToIntW (bs : List Nat) : Int :=
  if 2 * leVal bs < 256 ^ bs.length then (leVal bs : Int)
  else (leVal bs : Int) - 256 ^ bs.length

theorem int64ToBytes_bytesToInt64 (bs : List Nat) (hlen : bs.length = 8)
    (hb : ∀ b ∈ bs, b < 256) : int64ToBytes (bytesToInt64 bs) = bs := by
  have hu : leVal bs < 2 ^ 64 := by
    have h := leVal_lt bs hb
    rw [hlen] at h
    norm_num at h ⊢
    omega
  have hmod : ((bytesToInt64 bs) % (2 ^ 64)).toNat = leVal bs := by
    unfold bytesToInt64
    rw [show ((2 : Int) ^ 64) = 18446744073709551616 from by norm_num]
    split <;> omega
  unfold int64ToBytes
  rw [hmod, ← hlen, natToBytes_leVal bs hb]

theorem bytesToInt64_int64ToBytes_of_lt (v : Int) (h0 : 0 ≤ v) (h1 : v < 2 ^ 63) :
    bytesToInt64 (int64ToBytes v) = v := by
  have h1' : v < 9223372036854775808 := by
    rw [show ((9223372036854775808 : Int)) = 2 ^ 63 from by norm_num]
    exact h1
  have hmod : (v % (2 ^ 64)).toNat = v.toNat := by
    rw [show ((2 : Int) ^ 64) = 18446744073709551616 from by norm_num]
    omega
  unfold bytesToInt64 int64ToBytes
  rw [hmod, leVal_natToBytes]
  have hvn : v.toNat % 256 ^ 8 = v.toNat := Nat.mod_eq_of_lt (by norm_num; omega)
  rw [hvn]
  have hlt : v.toNat < 2 ^ 63 := by omega
  rw [if_pos hlt]
  omega

/-! ## Integer field encoding (`DbValue::DbValue`, dal.cpp lines 49-55)

The constructor zero-initialises the 240-byte inline buffer, then, for a
`DB_INTEGER` prototype whose highest supplied byte has its sign bit set
(`*(field + size - 1) & 128`), fills the buffer with `0xFF` before
copying the field's `size` bytes.  The canonical 8-byte slot is the
first 8 bytes of that buffer. -/

/-- The fill byte of the inline buffer: 255 when the sign bit of the
highest supplied byte is set, 0 otherwise. -/
def signFill (bs : List Nat) : Nat :=
  if (bs.getLast?.getD 0) &&& 128 = 0 then 0 else 255

/-- Canonical 8-byte slot produced for an integer field of `bs.length`
bytes: the field bytes copied verbatim, padded with the sign fill. -/
def encodeIntBytes (bs : List Nat) : List Nat :=
  bs ++ List.replicate (8 - bs.length) (signFill bs)

theorem encodeIntBytes_length (bs : List Nat) (h : bs.length ≤ 8) :
    (encodeIntBytes bs).length = 8 := by
  simp [encodeIntBytes]
  omega

theorem encodeIntBytes_bytes_lt (bs : List Nat) (hb : ∀ b ∈ bs, b < 256) :
    ∀ b ∈ encodeIntBytes bs, b < 256 := by
  intro b hbmem
  simp only [encodeIntBytes, List.mem_append] at hbmem
  rcases hbmem with h | h
  · exact hb b h
  · have hb2 := List.eq_of_mem_replicate h
    subst hb2
    unfold signFill
    split <;> norm_num

set_option maxRecDepth 4000 in
theorem land128_eq_zero_iff (b : Nat) (hb : b < 256) :
    (b &&& 128 = 0) ↔ b < 128 := by
  revert hb
  revert b
  decide

theorem getLast_sign_iff (bs : List Nat) (hne : bs ≠ [])
    (hb : ∀ b ∈ bs, b < 256) :
    ((bs.getLast?.getD 0) &&& 128 = 0) ↔ 2 * leVal bs < 256 ^ bs.length := by
  have hdecomp : bs.dropLast ++ [bs.getLast hne] = bs := List.dropLast_append_getLast hne
  have hlast : bs.getLast?.getD 0 = bs.getLast hne := by
    rw [List.getLast?_eq_getLast bs hne]
    rfl
  have hlt : bs.getLast hne < 256 := hb _ (List.getLast_mem hne)
  have hlenpos : 1 ≤ bs.length := by
    cases bs
    · exact absurd rfl hne
    · simp
  have hval : leVal bs = leVal bs.dropLast + 256 ^ (bs.length - 1) * bs.getLast hne := by
    conv_lhs => rw [← hdecomp]
    rw [leVal_append]
    simp [leVal, List.length_dropLast]
  have hdrop : leVal bs.dropLast < 256 ^ (bs.length - 1) := by
    have h := leVal_lt bs.dropLast (fun b hbm => hb b (by
      rw [← hdecomp]; exact List.mem_append_left _ hbm))
    rwa [List.length_dropLast] at h
  have hpow : 256 ^ bs.length = 256 ^ (bs.length - 1) * 256 := by
    conv_lhs => rw [show bs.length = (bs.length - 1) + 1 by omega]
    rw [pow_succ]
  rw [hlast, land128_eq_zero_iff _ hlt]
  constructor
  · intro h
    rw [hval, hpow]
    nlinarith [hdrop]
  · intro h
    by_contra hge
    have h128 : 128 ≤ bs.getLast hne := by omega
    rw [hval, hpow] at h
    nlinarith [hdrop, Nat.zero_le (leVal bs.dropLast)]

theorem bytesToInt64_encodeIntBytes (bs : List Nat) (hne : bs ≠ [])
    (hlen : bs.length ≤ 8) (hb : ∀ b ∈ bs, b < 256) :
    bytesToInt64 (encodeIntBytes bs) = bytesToIntW bs := by
  have hlenpos : 1 ≤ bs.length := by
    cases bs
    · exact absurd rfl hne
    · simp
  have hsign := getLast_sign_iff bs hne hb
  have hub : leVal bs < 256 ^ bs.length := leVal_lt bs hb
  have hple : (256 : Nat) ^ bs.length ≤ 2 ^ 64 := by
    calc (256 : Nat) ^ bs.length ≤ 256 ^ 8 := Nat.pow_le_pow_right (by norm_num) hlen
    _ = 2 ^ 64 := by norm_num
  have hval : leVal (encodeIntBytes bs)
      = leVal bs + 256 ^ bs.length * leVal (List.replicate (8 - bs.length) (signFill bs)) := by
    unfold encodeIntBytes
    rw [leVal_append]
  unfold bytesToInt64 bytesToIntW
  by_cases hpos : (bs.getLast?.getD 0) &&& 128 = 0
  · -- non-negative: fill bytes are zero
    have hf0 : signFill bs = 0 := by unfold signFill; rw [if_pos hpos]
    have h2 : 2 * leVal bs < 256 ^ bs.length := hsign.mp hpos
    rw [hval, hf0]
    simp only [leVal_replicate_zero, Nat.mul_zero, Nat.add_zero]
    have hsmall : leVal bs < 2 ^ 63 := by
      have h3 : 2 * leVal bs < 2 ^ 64 := lt_of_lt_of_le h2 hple
      omega
    rw [if_pos hsmall, if_pos h2]
  · -- negative: fill bytes are 255
    have hf255 : signFill bs = 255 := by unfold signFill; rw [if_neg hpos]
    have h2 : ¬ 2 * leVal bs < 256 ^ bs.length := fun hcon => hpos (hsign.mpr hcon)
    rw [hval, hf255]
    rw [leVal_replicate_255]
    have hmul : (256 : Nat) ^ bs.length * 256 ^ (8 - bs.length) = 2 ^ 64 := by
      rw [← pow_add]
      have hadd : bs.length + (8 - bs.length) = 8 := by omega
      rw [hadd]
      norm_num
    have hone : (1 : Nat) ≤ 256 ^ (8 - bs.length) := Nat.one_le_pow _ _ (by norm_num)
    have hfill : 256 ^ bs.length * (256 ^ (8 - bs.length) - 1)
        = 2 ^ 64 - 256 ^ bs.length := by
      rw [Nat.mul_sub, hmul, Nat.mul_one]
    rw [hfill]
    have hlow : 256 ^ bs.length ≤ 2 * leVal bs := by omega
    have hbig : ¬ leVal bs + (2 ^ 64 - 256 ^ bs.length) < 2 ^ 63 := by omega
    rw [if_neg hbig, if_neg h2]
    have hple' : (256 : Nat) ^ bs.length ≤ 18446744073709551616 := by
      calc (256 : Nat) ^ bs.length ≤ 2 ^ 64 := hple
      _ = 18446744073709551616 := by norm_num
    push_cast [Nat.cast_sub hple']
    ring

/-! ## Timestamps

`std::tm` fields relevant to the fixed `"%Y-%m-%d %H:%M:%S"` format used
by `DbValue::DbValue` (strftime) and `Retrievable::SetValue` (strptime).
`year` is `tm_year` (years since 1900), `month` is `tm_mon` (0-11).
strftime/strptime are external C library collaborators; they are
modelled on the documented fixed format (4-digit year, 2-digit
zero-padded remaining components). -/

structure Timestamp where
  year : Nat
  month : Nat
  day : Nat
  hour : Nat
  minute : Nat
  second : Nat
deriving DecidableEq

/-- In-range `tm` contents, for which the fixed-format rendering is the
standard calendar text. -/
def Timestamp.wf (t : Timestamp) : Prop :=
  t.year + 1900 ≤ 9999 ∧ t.month ≤ 11 ∧ t.day ≤ 31 ∧
  t.hour ≤ 23 ∧ t.minute ≤ 59 ∧ t.second ≤ 60

instance (t : Timestamp) : Decidable t.wf := by
  unfold Timestamp.wf
  infer_instance

def digitChar : Nat → Char
  | 0 => '0'
  | 1 => '1'
  | 2 => '2'
  | 3 => '3'
  | 4 => '4'
  | 5 => '5'
  | 6 => '6'
  | 7 => '7'
  | 8 => '8'
  | _ => '9'

def digitVal (c : Char) : Nat := c.toNat - 48

theorem digitVal_digitChar (d : Nat) (h : d < 10) :
    digitVal (digitChar d) = d := by
  interval_cases d <;> rfl

theorem isDigit_digitChar (d : Nat) (h : d < 10) :
    (digitChar d).isDigit = true := by
  interval_cases d <;> rfl

/-- Two-digit zero-padded rendering (`%m`, `%d`, `%H`, `%M`, `%S`). -/
def pad2Chars (n : Nat) : List Char :=
  [digitChar (n / 10 % 10), digitChar (n % 10)]

/-- Four-digit year rendering (`%Y`, years 1000-9999). -/
def pad4Chars (n : Nat) : List Char :=
  [digitChar (n / 1000 % 10), digitChar (n / 100 % 10),
   digitChar (n / 10 % 10), digitChar (n % 10)]

/-- `strftime(value_arr, 240, "%Y-%m-%d %H:%M:%S", field)`
(dal.cpp line 47). -/
def formatTimeChars (t : Timestamp) : List Char :=
  pad4Chars (t.year + 1900) ++ '-' :: pad2Chars (t.month + 1) ++ '-' ::
  pad2Chars t.day ++ ' ' :: pad2Chars t.hour ++ ':' ::
  pad2Chars t.minute ++ ':' :: pad2Chars t.second

def formatTime (t : Timestamp) : String := String.mk (formatTimeChars t)

/-- `strptime(text, "%Y-%m-%d %H:%M:%S", field)` (dal.cpp line 239) on
the fixed-format text: recovers `tm_year = year - 1900`,
`tm_mon = month - 1` and the remaining components. -/
def parseTimeChars (cs : List Char) : Option Timestamp :=
  match cs with
  | [y3, y2, y1, y0, c1, m1, m0, c2, d1, d0, c3, h1, h0, c4, n1, n0, c5, s1, s0] =>
    if c1 = '-' ∧ c2 = '-' ∧ c3 = ' ' ∧ c4 = ':' ∧ c5 = ':' ∧
       y3.isDigit ∧ y2.isDigit ∧ y1.isDigit ∧ y0.isDigit ∧
       m1.isDigit ∧ m0.isDigit ∧ d1.isDigit ∧ d0.isDigit ∧
       h1.isDigit ∧ h0.isDigit ∧ n1.isDigit ∧ n0.isDigit ∧
       s1.isDigit ∧ s0.isDigit then
      some {
        year := digitVal y3 * 1000 + digitVal y2 * 100 + digitVal y1 * 10 + digitVal y0 - 1900,
        month := digitVal m1 * 10 + digitVal m0 - 1,
        day := digitVal d1 * 10 + digitVal d0,
        hour := digitVal h1 * 10 + digitVal h0,
        minute := digitVal n1 * 10 + digitVal n0,
        second := digitVal s1 * 10 + digitVal s0 }
    else none
  | _ => none

def parseTime (s : String) : Option Timestamp := parseTimeChars s.data

theorem parseTime_formatTime (t : Timestamp) (h : t.wf) :
    parseTime (formatTime t) = some t := by
  obtain ⟨y, mo, d, hh, mi, s⟩ := t
  obtain ⟨h1, h2, h3, h4, h5, h6⟩ := h
  have hy1 : y + 1900 ≤ 9999 := h1
  have hmo1 : mo ≤ 11 := h2
  have hd1 : d ≤ 31 := h3
  have hh1 : hh ≤ 23 := h4
  have hmi1 : mi ≤ 59 := h5
  have hs1 : s ≤ 60 := h6
  clear h1 h2 h3 h4 h5 h6
  have hd : ∀ n : Nat, n % 10 < 10 := fun n => Nat.mod_lt _ (by norm_num)
  show parseTimeChars (formatTimeChars ⟨y, mo, d, hh, mi, s⟩) = _
  simp only [formatTimeChars, pad4Chars, pad2Chars, List.cons_append, List.nil_append]
  simp only [parseTimeChars]
  rw [if_pos ?hcond]
  case hcond =>
    refine ⟨trivial, trivial, trivial, trivial, trivial,
      ?_, ?_, ?_, ?_, ?_, ?_, ?_, ?_, ?_, ?_, ?_, ?_, ?_, ?_⟩ <;>
      exact isDigit_digitChar _ (hd _)
  simp only [digitVal_digitChar _ (hd _), Option.some.injEq, Timestamp.mk.injEq]
  have key : ∀ a : Nat, a ≤ 9999 →
      a / 1000 % 10 * 1000 + a / 100 % 10 * 100 + a / 10 % 10 * 10 + a % 10 = a := by
    intro a ha
    have e1 : a / 10 / 10 = a / 100 := by rw [Nat.div_div_eq_div_mul]
    have e2 : a / 100 / 10 = a / 1000 := by
      rw [Nat.div_div_eq_div_mul]
    omega
  have hp2 : ∀ n : Nat, n ≤ 99 → n / 10 % 10 * 10 + n % 10 = n := by
    intro n hn
    omega
  refine ⟨?_, ?_, ?_, ?_, ?_, ?_⟩
  · have hk := key (y + 1900) (by omega)
    omega
  · have hk := hp2 (mo + 1) (by omega)
    omega
  · exact hp2 d (by omega)
  · exact hp2 hh (by omega)
  · exact hp2 mi (by omega)
  · exact hp2 s (by omega)

/-! ## Data model (`dal.h`)

A `Field` models one registered `dbValuePrototype` together with the
in-memory content it points at; a `Record` models a `Retrievable`
instance with an initialized registry (registration itself is modelled
separately, see `savePrototype`). -/

inductive DbDataType
  | DB_INTEGER
  | DB_FLOAT
  | DB_TEXT
  | DB_TIME
deriving DecidableEq

open DbDataType

/-- In-memory content of one registered field.  Integral fields are the
raw little-endian bytes at the field's address; a `double` is its
8-byte pattern, opaque to the mapper, which only ever copies it. -/
inductive FieldContent
  | intF (bytes : List Nat)
  | floatF (bits : List Nat)
  | cstrF (s : String)
  | strF (s : String)
  | timeF (t : Timestamp)
deriving DecidableEq

/-- `DbDataType` chosen by the `RegisterField` overloads. -/
def FieldContent.dtype : FieldContent → DbDataType
  | .intF _ => DB_INTEGER
  | .floatF _ => DB_FLOAT
  | .cstrF _ => DB_TEXT
  | .strF _ => DB_TEXT
  | .timeF _ => DB_TIME

/-- `size` recorded by the `RegisterField` overloads: `sizeof` the
integral/floating field, `sizeof(char)` for a `char*` field, 0 for
`std::string` and `std::tm`. -/
def FieldContent.size : FieldContent → Nat
  | .intF bs => bs.length
  | .floatF _ => 8
  | .cstrF _ => 1
  | .strF _ => 0
  | .timeF _ => 0

structure Field where
  name : String
  foreignKey : String
  content : FieldContent
deriving DecidableEq

structure Record where
  tableName : String
  fields : List Field
deriving DecidableEq

/-- One entry of `Retrievable::GetSchema()`. -/
structure dbValueSchema where
  name : String
  type : DbDataType
  size : Nat
  foreignKey : String
deriving DecidableEq

def Field.toSchema (f : Field) : dbValueSchema :=
  ⟨f.name, f.content.dtype, f.content.size, f.foreignKey⟩

def Record.schema (r : Record) : List dbValueSchema :=
  r.fields.map Field.toSchema

/-- Well-formed field content: integral fields are 1-8 bytes of actual
bytes, doubles are 8 bytes, timestamps are in calendar range. -/
def FieldContent.wf : FieldContent → Prop
  | .intF bs => 1 ≤ bs.length ∧ bs.length ≤ 8 ∧ ∀ b ∈ bs, b < 256
  | .floatF bits => bits.length = 8
  | .cstrF _ => True
  | .strF _ => True
  | .timeF t => t.wf

instance (c : FieldContent) : Decidable c.wf := by
  cases c <;> unfold FieldContent.wf <;> infer_instance

/-- Well-formed record: at least two registered fields (the SQL
synthesizers assert `columns.size() > 1`), unique field names, and
well-formed contents. -/
def Record.wf (r : Record) : Prop :=
  2 ≤ r.fields.length ∧ (r.fields.map Field.name).Nodup ∧
  ∀ f ∈ r.fields, f.content.wf

instance (r : Record) : Decidable r.wf := by
  unfold Record.wf
  infer_instance

/-! ## `DbValue` encoding (`DbValue::DbValue(const dbValuePrototype&)`) -/

/-- Encoded payload held in a `DbValue`'s buffer. -/
inductive EncVal
  | ints (slot : List Nat)
  | floats (bits : List Nat)
  | text (s : String)
deriving DecidableEq

/-- Buffer content written by the `DbValue` constructor: integers get
the sign-extended canonical 8-byte slot, doubles are copied, text is
copied, timestamps are rendered by `strftime`. -/
def encodeContent : FieldContent → EncVal
  | .intF bs => .ints (encodeIntBytes bs)
  | .floatF bits => .floats bits
  | .cstrF s => .text s
  | .strF s => .text s
  | .timeF t => .text (formatTime t)

structure DbValue where
  name : String
  type : DbDataType
  size : Nat
  val : EncVal
deriving DecidableEq

def encodeField (f : Field) : DbValue :=
  ⟨f.name, f.content.dtype, f.content.size, encodeContent f.content⟩

/-- `Retrievable::GetValues()`: every registered field encoded, in
registration order. -/
def Record.getValues (r : Record) : List DbValue :=
  r.fields.map encodeField

/-- `*(int64_t*)value`: the canonical slot read back as a signed 64-bit
integer.  Every use in the code is guarded by `type == DB_INTEGER`, so
only the `ints` branch is ever exercised. -/
def DbValue.int64 (v : DbValue) : Int :=
  match v.val with
  | .ints slot => bytesToInt64 slot
  | .floats bits => bytesToInt64 bits
  | .text _ => 0

/-! ## SQLite-side values and statement binding -/

/-- A value as held by the store / bound to a statement parameter. -/
inductive SqlVal
  | intV (v : Int)
  | floatV (bits : List Nat)
  | textV (s : String)
  | nullV
deriving DecidableEq

/-- `DbService::BindStmtParameter`: dispatch on the `DbValue`'s type;
integers go through `sqlite3_bind_int64` on the canonical slot, doubles
through `sqlite3_bind_double`, text/time through `sqlite3_bind_text`.
The mapper never produces a payload kind that disagrees with the
declared type, so the fallthrough `nullV` branches are unexercised. -/
def bindStmtParameter (v : DbValue) : SqlVal :=
  match v.type with
  | DB_INTEGER => .intV v.int64
  | DB_FLOAT =>
    match v.val with
    | .floats bits => .floatV bits
    | _ => .nullV
  | _ =>
    match v.val with
    | .text s => .textV s
    | _ => .nullV

/-! ## `Retrievable::SetValue` -/

/-- Payload passed to `SetValue` (a typed view of the `void*`
argument). -/
inductive SetVal
  | i64 (v : Int)
  | f64 (bits : List Nat)
  | str (s : String)
deriving DecidableEq

/-- The `switch` of `Retrievable::SetValue`, dispatching on the
registered field type: integral fields receive `memcpy(field, value,
size)` from an `int64_t` (the low `size` bytes on a little-endian
host), doubles are copied, text is reallocated/assigned, timestamps are
parsed by `strptime` (which leaves the field as-is when nothing
parses).  Call sites always pass a payload matching the registered
type; mismatches fall through unchanged. -/
def applySet : FieldContent → SetVal → FieldContent
  | .intF bs, .i64 v => .intF ((int64ToBytes v).take bs.length)
  | .floatF _, .f64 bits => .floatF bits
  | .cstrF _, .str s => .cstrF s
  | .strF _, .str s => .strF s
  | .timeF t, .str s => .timeF ((parseTime s).getD t)
  | c, _ => c

def setFields : List Field → String → SetVal → List Field
  | [], _, _ => []
  | f :: fs, n, v =>
    if f.name = n then { f with content := applySet f.content v } :: fs
    else f :: setFields fs n v

/-- `Retrievable::SetValue(name, value)`: replaces the content of the
(unique) field registered under `name`.  The lookup-failure throw is
not reachable from the mapper, which only uses registered names. -/
def Record.setValue (r : Record) (n : String) (v : SetVal) : Record :=
  { r with fields := setFields r.fields n v }

/-! ## `DbService::FillEntity` -/

/-- Column accessor of the result row used by `FillEntity`, per the
declared column type (`sqlite3_column_int64` / `_double` / `_text`).
The mapper's own writes always store the matching kind; a NULL or
mismatched stored value decodes to 0 / zero bits / empty text. -/
def columnToSet (t : DbDataType) (v : SqlVal) : SetVal :=
  match t with
  | DB_INTEGER =>
    .i64 (match v with
      | .intV k => k
      | _ => 0)
  | DB_FLOAT =>
    .f64 (match v with
      | .floatV bits => bits
      | _ => List.replicate 8 0)
  | _ =>
    .str (match v with
      | .textV s => s
      | _ => "")

def fillLoop : Record → List (dbValueSchema × SqlVal) → Record
  | r, [] => r
  | r, (c, v) :: rest => fillLoop (r.setValue c.name (columnToSet c.type v)) rest

/-- `DbService::FillEntity(stmt, entity)`: decode each result column
back into the record via `SetValue`, in schema order. -/
def fillEntity (r : Record) (row : List SqlVal) : Record :=
  fillLoop r (r.schema.zip row)

/-! ## Per-field round trip -/

/-- Two field contents of the same shape: same constructor and, for
integral fields, the same byte width (fields of the same record type at
the same position). -/
def FieldContent.sameShape : FieldContent → FieldContent → Prop
  | .intF a, .intF b => a.length = b.length
  | .floatF _, .floatF _ => True
  | .cstrF _, .cstrF _ => True
  | .strF _, .strF _ => True
  | .timeF _, .timeF _ => True
  | _, _ => False

instance (a b : FieldContent) : Decidable (a.sameShape b) := by
  cases a <;> cases b <;> unfold FieldContent.sameShape <;> infer_instance

theorem take_append_self (xs ys : List Nat) : (xs ++ ys).take xs.length = xs := by
  induction xs with
  | nil => simp
  | cons b t ih => simp [ih]

/-- Encoding a well-formed field, binding it, storing it, reading the
column back and applying it to a same-shape field restores the original
content exactly. -/
theorem content_roundtrip (c c' : FieldContent) (hwf : c.wf)
    (hs : c.sameShape c') :
    applySet c' (columnToSet c.dtype (bindStmtParameter (encodeField ⟨"x", "", c⟩))) = c := by
  cases c with
  | intF bs =>
    cases c' with
    | intF bs' =>
      obtain ⟨hlen1, hlen8, hb⟩ := hwf
      have hshape : bs.length = bs'.length := hs
      simp only [encodeField, FieldContent.dtype, encodeContent, bindStmtParameter,
        DbValue.int64, columnToSet, applySet]
      rw [int64ToBytes_bytesToInt64 _ (encodeIntBytes_length bs hlen8)
        (encodeIntBytes_bytes_lt bs hb)]
      rw [← hshape]
      unfold encodeIntBytes
      rw [take_append_self]
    | floatF _ => exact absurd hs (by simp [FieldContent.sameShape])
    | cstrF _ => exact absurd hs (by simp [FieldContent.sameShape])
    | strF _ => exact absurd hs (by simp [FieldContent.sameShape])
    | timeF _ => exact absurd hs (by simp [FieldContent.sameShape])
  | floatF bits =>
    cases c' with
    | floatF _ => rfl
    | intF _ => exact absurd hs (by simp [FieldContent.sameShape])
    | cstrF _ => exact absurd hs (by simp [FieldContent.sameShape])
    | strF _ => exact absurd hs (by simp [FieldContent.sameShape])
    | timeF _ => exact absurd hs (by simp [FieldContent.sameShape])
  | cstrF s =>
    cases c' with
    | cstrF _ => rfl
    | intF _ => exact absurd hs (by simp [FieldContent.sameShape])
    | floatF _ => exact absurd hs (by simp [FieldContent.sameShape])
    | strF _ => exact absurd hs (by simp [FieldContent.sameShape])
    | timeF _ => exact absurd hs (by simp [FieldContent.sameShape])
  | strF s =>
    cases c' with
    | strF _ => rfl
    | intF _ => exact absurd hs (by simp [FieldContent.sameShape])
    | floatF _ => exact absurd hs (by simp [FieldContent.sameShape])
    | cstrF _ => exact absurd hs (by simp [FieldContent.sameShape])
    | timeF _ => exact absurd hs (by simp [FieldContent.sameShape])
  | timeF t =>
    cases c' with
    | timeF t' =>
      simp only [encodeField, FieldContent.dtype, encodeContent, bindStmtParameter,
        columnToSet, applySet]
      rw [parseTime_formatTime t hwf]
      rfl
    | intF _ => exact absurd hs (by simp [FieldContent.sameShape])
    | floatF _ => exact absurd hs (by simp [FieldContent.sameShape])
    | cstrF _ => exact absurd hs (by simp [FieldContent.sameShape])
    | strF _ => exact absurd hs (by simp [FieldContent.sameShape])

/-! ## The store

The SQLite engine is an external collaborator.  Its documented
behaviour, as relied upon by `dal.cpp`, is modelled directly: tables
are lists of rows in natural (insertion) order; an `INSERT` whose
`INTEGER PRIMARY KEY` parameter is left unbound assigns the next rowid
(one larger than the largest key in use, at least 1); a bound key that
duplicates an existing key, a `NULL` in a `NOT NULL` key column, and a
foreign-key value without a matching parent row (the `foreign_keys`
pragma is always switched on by the mapper before writes) abort the
statement with a constraint error. -/

structure Store where
  tabs : List (String × List (List SqlVal))
deriving DecidableEq

def Store.rows (db : Store) (t : String) : Option (List (List SqlVal)) :=
  db.tabs.lookup t

def setRowsList (t : String) (rs : List (List SqlVal)) :
    List (String × List (List SqlVal)) → List (String × List (List SqlVal))
  | [] => []
  | p :: tl =>
    if p.1 = t then (p.1, rs) :: setRowsList t rs tl
    else p :: setRowsList t rs tl

def Store.setRows (db : Store) (t : String) (rs : List (List SqlVal)) : Store :=
  ⟨setRowsList t rs db.tabs⟩

inductive Event
  | openConn
  | prepareStmt
  | pragmaFK
  | beginTx
  | stepStmt
  | endTx
deriving DecidableEq

inductive DalError
  | cannotOpen
  | cannotPrepare
  | cannotStep
  | noEntities
  | assertFail (msg : String)
  | noSuchProperty
  | parseError
deriving DecidableEq

/-- Largest integer key in use in a table (0 for an empty table). -/
def maxKey (rows : List (List SqlVal)) : Int :=
  rows.foldl (fun acc row =>
    match row.head? with
    | some (.intV k) => max acc k
    | _ => acc) 0

/-- Foreign-key lookup: the referenced table must exist and contain a
row whose key equals the child value. -/
def fkOkB (db : Store) (fk : String) (v : SqlVal) : Bool :=
  match db.rows fk with
  | none => false
  | some rs => rs.any fun row => decide (row.head? = some v)

/-- Foreign-key checks over the non-key columns; an unbound (NULL)
foreign key passes, per SQLite semantics. -/
def fkColsOkB (db : Store) (cols : List dbValueSchema)
    (binds : List (String × SqlVal)) : Bool :=
  cols.all fun c =>
    if c.foreignKey = "" then true
    else
      match binds.lookup c.name with
      | none => true
      | some v => fkOkB db c.foreignKey v

/-- Key resolution of an `INSERT`: a bound key must be new (key
uniqueness) and satisfy a declared foreign-key reference; an unbound
(NULL) key is auto-assigned the next rowid when the key column is the
`INTEGER PRIMARY KEY` rowid alias, and violates `NOT NULL` otherwise
(the key column of a created table is always `PRIMARY KEY NOT NULL` or
`UNIQUE NOT NULL REFERENCES ...`). -/
def insertKeyRes (db : Store) (rs : List (List SqlVal)) (keycol : dbValueSchema)
    (binds : List (String × SqlVal)) : Except DalError SqlVal :=
  match binds.lookup keycol.name with
  | some v =>
    if rs.any (fun row => decide (row.head? = some v)) then .error .cannotStep
    else if keycol.foreignKey = "" then .ok v
    else if fkOkB db keycol.foreignKey v then .ok v
    else .error .cannotStep
  | none =>
    if keycol.type = DB_INTEGER ∧ keycol.foreignKey = "" then
      .ok (.intV (maxKey rs + 1))
    else .error .cannotStep

/-- One `INSERT` step against the store.  Returns the updated store and
`sqlite3_last_insert_rowid` of the connection. -/
def sqliteInsert (db : Store) (table : String) (cols : List dbValueSchema)
    (binds : List (String × SqlVal)) : Except DalError (Store × Int) :=
  match db.rows table with
  | none => .error .cannotPrepare
  | some rs =>
    match cols with
    | [] => .error .cannotStep
    | keycol :: rest =>
      match insertKeyRes db rs keycol binds with
      | .error e => .error e
      | .ok keyVal =>
        if fkColsOkB db rest binds then
          .ok (db.setRows table
                (rs ++ [keyVal :: rest.map fun c => (binds.lookup c.name).getD .nullV]),
              match keyVal with
              | .intV k => k
              | _ => 0)
        else .error .cannotStep

/-- One `UPDATE ... SET <non-key columns> WHERE <key> = :<key>` step:
every row whose key equals the bound key value receives the bound
column values.  Constraint checks on updates are outside the scope of
the verified claims and are not modelled. -/
def sqliteUpdate (db : Store) (table : String) (cols : List dbValueSchema)
    (binds : List (String × SqlVal)) : Except DalError Store :=
  match db.rows table with
  | none => .error .cannotPrepare
  | some rs =>
    match cols with
    | [] => .error .cannotStep
    | keycol :: rest =>
      let keyVal := (binds.lookup keycol.name).getD .nullV
      let newRow := keyVal :: rest.map fun c => (binds.lookup c.name).getD .nullV
      .ok (db.setRows table (rs.map fun row =>
        if row.head? = some keyVal then newRow else row))

/-- One `DELETE FROM <table> WHERE <key> = :<key>` step. -/
def sqliteDelete (db : Store) (table : String) (keyVal : SqlVal) :
    Except DalError Store :=
  match db.rows table with
  | none => .error .cannotPrepare
  | some rs =>
    .ok (db.setRows table (rs.filter fun row => !(decide (row.head? = some keyVal))))

/-! ## `DbService` operations -/

/-- `values[0].type == DB_INTEGER && !*(static_cast<int64_t*>(values[0].value))`:
the primary key is to be assigned by the store. -/
def autoKeyB (values : List DbValue) : Bool :=
  match values.head? with
  | some v => decide (v.type = DB_INTEGER) && decide (v.int64 = 0)
  | none => false

/-- `DbService::BindStmtParameters(stmt, values, withPK)`: when
`withPK` is false and the key is the integer zero sentinel, the first
value is skipped and its named placeholder stays unbound (NULL);
otherwise every value is bound by its placeholder name. -/
def bindStmtParameters (values : List DbValue) (withPK : Bool) :
    List (String × SqlVal) :=
  let withPK2 := withPK || !autoKeyB values
  (if withPK2 then values else values.drop 1).map fun v => (v.name, bindStmtParameter v)

/-- Name of the zeroth (key) column, `entity.GetSchema()[0].name`. -/
def Record.keyName (r : Record) : String :=
  ((r.schema.head?).map dbValueSchema.name).getD ""

/-- Result of a single-entity operation: outcome, post store, post
record, and the connection/statement events that were performed. -/
structure OpOut1 where
  res : Except DalError Unit
  db : Store
  record : Record
  events : List Event

/-- Result of a batch operation. -/
structure OpOutN where
  res : Except DalError Unit
  db : Store
  recs : List Record
  events : List Event

/-- Result of a query operation. -/
structure OpOutQ where
  res : Except DalError (List Record)
  db : Store
  events : List Event

/-- `DbService::SaveEntity` (dal.cpp lines 387-434): encode the values,
synthesize/fetch INSERT SQL (asserting more than one column), open,
prepare, bind (omitting a zero integer key), enable the foreign-key
pragma, step, and — exactly when the key was the zero sentinel — write
the store-assigned rowid back into the key field via `SetValue`. -/
def saveEntity (db : Store) (r : Record) : OpOut1 :=
  if r.schema.length ≤ 1 then
    ⟨.error (.assertFail "columns.size() > 1"), db, r, []⟩
  else
    match sqliteInsert db r.tableName r.schema (bindStmtParameters r.getValues false) with
    | .error e => ⟨.error e, db, r, [.openConn, .prepareStmt, .pragmaFK, .stepStmt]⟩
    | .ok (db2, rowid) =>
      if autoKeyB r.getValues then
        ⟨.ok (), db2, r.setValue r.keyName (.i64 rowid),
          [.openConn, .prepareStmt, .pragmaFK, .stepStmt]⟩
      else
        ⟨.ok (), db2, r, [.openConn, .prepareStmt, .pragmaFK, .stepStmt]⟩

/-- `DbService::RetrieveEntity` (dal.cpp lines 767-818): synthesize
SELECT with a key predicate, bind the key from the record's encoded
values, step; a result row is decoded into the record by `FillEntity`;
zero rows pass the step guard (`SQLITE_DONE`) and hit
`assert(rc == SQLITE_ROW)`, so nothing is decoded.

`Record.keyBindVal` is the value bound for the key predicate:
`BindStmtParameter(stmt, entity.GetValues()[0])`. -/
def Record.keyBindVal (r : Record) : SqlVal :=
  match r.getValues.head? with
  | some v => bindStmtParameter v
  | none => SqlVal.nullV

def retrieveEntity (db : Store) (r : Record) : OpOut1 :=
  if r.schema.length ≤ 1 then
    ⟨.error (.assertFail "columns.size() > 1"), db, r, []⟩
  else
    match db.rows r.tableName with
    | none => ⟨.error .cannotPrepare, db, r, [.openConn, .prepareStmt]⟩
    | some rs =>
      match rs.find? (fun row => decide (row.head? = some r.keyBindVal)) with
      | none =>
        ⟨.error (.assertFail "rc == SQLITE_ROW"), db, r,
          [.openConn, .prepareStmt, .stepStmt]⟩
      | some row =>
        ⟨.ok (), db, fillEntity r row, [.openConn, .prepareStmt, .stepStmt]⟩

/-- `DbService::UpdateEntity` (dal.cpp lines 515-563): synthesize
UPDATE SQL (asserting more than one column), bind with `withPK = true`
(every column, the key included, the key naming the WHERE parameter),
step.  The commented-out `FillEntity` call is dead: nothing is written
back into the record. -/
def updateEntity (db : Store) (r : Record) : OpOut1 :=
  if r.schema.length ≤ 1 then
    ⟨.error (.assertFail "columns.size() > 1"), db, r, []⟩
  else
    match sqliteUpdate db r.tableName r.schema (bindStmtParameters r.getValues true) with
    | .error e => ⟨.error e, db, r, [.openConn, .prepareStmt]⟩
    | .ok db2 => ⟨.ok (), db2, r, [.openConn, .prepareStmt, .pragmaFK, .stepStmt]⟩

/-- Statement preparation inside a batch loop: re-prepare only when the
table name changed from the previous entity (asserting more than one
column while synthesizing the SQL); a missing table fails the
prepare. -/
def prepareIfNew (work : Store) (prev : String) (r : Record) :
    Except DalError Unit :=
  if r.tableName = prev then .ok ()
  else if r.schema.length ≤ 1 then .error (.assertFail "columns.size() > 1")
  else if (work.rows r.tableName).isSome then .ok ()
  else .error .cannotPrepare

def saveEntitiesLoop : Store → String → List Record →
    Except DalError Unit × Store × List Record
  | work, _, [] => (.ok (), work, [])
  | work, prev, r :: rest =>
    match prepareIfNew work prev r with
    | .error e => (.error e, work, r :: rest)
    | .ok _ =>
      match sqliteInsert work r.tableName r.schema (bindStmtParameters r.getValues false) with
      | .error e => (.error e, work, r :: rest)
      | .ok (work2, rowid) =>
        match saveEntitiesLoop work2 r.tableName rest with
        | (res, work3, recs) =>
          (res, work3,
            (if autoKeyB r.getValues then r.setValue r.keyName (.i64 rowid) else r) :: recs)

/-- `DbService::SaveEntities` (dal.cpp lines 437-512): an empty batch
throws before any connection is opened; otherwise one connection, the
foreign-key pragma, one transaction around the whole batch.  A failing
step throws out of the loop; the transaction is never committed and
closing the connection rolls every insert of the batch back. -/
def saveEntities (db : Store) (entities : List Record) : OpOutN :=
  if entities.isEmpty then ⟨.error .noEntities, db, entities, []⟩
  else
    match saveEntitiesLoop db "" entities with
    | (.ok _, work, recs) =>
      ⟨.ok (), work, recs, [.openConn, .pragmaFK, .beginTx, .stepStmt, .endTx]⟩
    | (.error e, _, recs) =>
      ⟨.error e, db, recs, [.openConn, .pragmaFK, .beginTx, .stepStmt]⟩

/-- Loop body of `DbService::UpdateEntities`; no write-back. -/
def updateEntitiesLoop : Store → String → List Record →
    Except DalError Unit × Store
  | work, _, [] => (.ok (), work)
  | work, prev, r :: rest =>
    match prepareIfNew work prev r with
    | .error e => (.error e, work)
    | .ok _ =>
      match sqliteUpdate work r.tableName r.schema (bindStmtParameters r.getValues true) with
      | .error e => (.error e, work)
      | .ok work2 => updateEntitiesLoop work2 r.tableName rest

/-- `DbService::UpdateEntities` (dal.cpp lines 566-634). -/
def updateEntities (db : Store) (entities : List Record) : OpOutN :=
  if entities.isEmpty then ⟨.error .noEntities, db, entities, []⟩
  else
    match updateEntitiesLoop db "" entities with
    | (.ok _, work) =>
      ⟨.ok (), work, entities, [.openConn, .pragmaFK, .beginTx, .stepStmt, .endTx]⟩
    | (.error e, _) =>
      ⟨.error e, db, entities, [.openConn, .pragmaFK, .beginTx, .stepStmt]⟩

/-- Loop body of `DbService::DeleteEntities`: the DELETE statement is
synthesized per table change and only the key column is bound. -/
def deleteEntitiesLoop : Store → String → List Record →
    Except DalError Unit × Store
  | work, _, [] => (.ok (), work)
  | work, prev, r :: rest =>
    match (if r.tableName = prev then .ok ()
           else if (work.rows r.tableName).isSome then .ok ()
           else Except.error DalError.cannotPrepare) with
    | .error e => (.error e, work)
    | .ok _ =>
      match sqliteDelete work r.tableName r.keyBindVal with
      | .error e => (.error e, work)
      | .ok work2 => deleteEntitiesLoop work2 r.tableName rest

/-- `DbService::DeleteEntities` (dal.cpp lines 691-764). -/
def deleteEntities (db : Store) (entities : List Record) : OpOutN :=
  if entities.isEmpty then ⟨.error .noEntities, db, entities, []⟩
  else
    match deleteEntitiesLoop db "" entities with
    | (.ok _, work) =>
      ⟨.ok (), work, entities, [.openConn, .pragmaFK, .beginTx, .stepStmt, .endTx]⟩
    | (.error e, _) =>
      ⟨.error e, db, entities, [.openConn, .pragmaFK, .beginTx, .stepStmt]⟩

/-- Index of the named column in the schema (SQL references columns by
name; names are unique within a schema). -/
def colIndex (cols : List dbValueSchema) (n : String) : Nat :=
  cols.findIdx fun c => decide (c.name = n)

def rowValueAt (row : List SqlVal) (i : Nat) : SqlVal := (row.get? i).getD .nullV

/-- `DbService::RetrieveEntities<T>` specialised to the equality
predicate `"<col> = <literal>"` built by `RetrieveChildEntities` (the
raw predicate string is executed by the external SQL engine; its
equality semantics on the named column is modelled directly): one
freshly constructed record per matching row, in the store's natural
row order.  `t` stands for the default-constructed `TEntity`. -/
def retrieveEntitiesEq (db : Store) (t : Record) (colName : String) (v : SqlVal) :
    OpOutQ :=
  if t.schema.length ≤ 1 then
    ⟨.error (.assertFail "columns.size() > 1"), db, []⟩
  else
    match db.rows t.tableName with
    | none => ⟨.error .cannotPrepare, db, [.openConn, .prepareStmt]⟩
    | some rs =>
      ⟨.ok ((rs.filter fun row =>
          decide (rowValueAt row (colIndex t.schema colName) = v)).map (fillEntity t)),
        db, [.openConn, .prepareStmt, .stepStmt]⟩

/-- `DbService::RetrieveChildEntities<T>` (dal.h lines 330-350): scan
T's schema in registration order for the first column whose declared
foreign table equals the parent's table name; when found, build the
equality predicate on the parent's key (read as `int64_t` from the
parent's first encoded value) and delegate; otherwise return an empty
vector without touching the store. -/
def retrieveChildEntities (db : Store) (t : Record) (parent : Record) : OpOutQ :=
  match t.schema.find? (fun c => decide (c.foreignKey = parent.tableName)) with
  | none => ⟨.ok [], db, []⟩
  | some c =>
    let pk :=
      match parent.getValues.head? with
      | some v => v.int64
      | none => 0
    retrieveEntitiesEq db t c.name (.intV pk)

/-! ## Field registration (`Retrievable::SavePrototype`) -/

/-- `Retrievable::SavePrototype` (dal.cpp lines 317-332) on the
registry (the ordered prototype vector; the map and the schema mirror
it): inserting a prototype under an already-registered name fails the
`assert(ret.second)` registration check before anything is appended;
otherwise the descriptor is appended, preserving registration order. -/
def savePrototype (reg : List Field) (p : Field) :
    Except DalError Unit × List Field :=
  if p.name ∈ reg.map Field.name then
    (.error (.assertFail "value with that name is already registered"), reg)
  else (.ok (), reg ++ [p])

/-! ## String-value bridge (`Retrievable::SetStrValue`) -/

/-- `std::stol` on a 64-bit host: skip leading whitespace, optional
sign, then the longest run of decimal digits; `none` models the
`std::invalid_argument` (no digits) and `std::out_of_range` (beyond
`long`) exceptions.  Characters after the digit run are ignored. -/
def stolM (s : String) : Option Int :=
  let cs := s.data.dropWhile Char.isWhitespace
  let sgn : Int :=
    match cs with
    | '-' :: _ => -1
    | _ => 1
  let cs2 :=
    match cs with
    | '-' :: t => t
    | '+' :: t => t
    | _ => cs
  let ds := cs2.takeWhile Char.isDigit
  if ds.isEmpty then none
  else
    let v : Int := sgn * (ds.foldl (fun a c => a * 10 + digitVal c) 0 : Nat)
    if v < -(2 ^ 63) ∨ 2 ^ 63 ≤ v then none else some v

def Record.findField (r : Record) (n : String) : Option Field :=
  r.fields.find? fun f => decide (f.name = n)

/-- `Retrievable::SetStrValue` (dal.cpp lines 248-276): look the name
up (throwing when unregistered), then dispatch on the registered kind:
integers through `stol`, floats through `stod`, text and timestamps
passed through as C strings; the converted value is delegated to
`SetValue`.  `stod` is an external C++ library function; it is passed
in as `stodFn`, returning `none` where `stod` throws and the parsed
double's bit pattern otherwise. -/
def setStrValue (stodFn : String → Option (List Nat)) (r : Record) (n : String)
    (s : String) : Except DalError Record :=
  match r.findField n with
  | none => .error .noSuchProperty
  | some f =>
    match f.content.dtype with
    | DB_INTEGER =>
      match stolM s with
      | none => .error .parseError
      | some v => .ok (r.setValue n (.i64 v))
    | DB_FLOAT =>
      match stodFn s with
      | none => .error .parseError
      | some bits => .ok (r.setValue n (.f64 bits))
    | _ => .ok (r.setValue n (.str s))

/-! ## Supporting lemmas -/

theorem lookup_setRowsList (t : String) (rs : List (List SqlVal)) :
    ∀ tabs : List (String × List (List SqlVal)),
      (tabs.lookup t).isSome → (setRowsList t rs tabs).lookup t = some rs := by
  intro tabs
  induction tabs with
  | nil => intro h; simp [List.lookup] at h
  | cons p tl ih =>
    obtain ⟨k, val⟩ := p
    intro h
    by_cases hp : k = t
    · subst hp
      simp [setRowsList, List.lookup]
    · have hne : (t == k) = false := beq_eq_false_iff_ne.mpr fun hc => hp hc.symm
      simp only [List.lookup, hne] at h
      simp only [setRowsList, if_neg hp, List.lookup, hne]
      exact ih h

theorem rows_setRows_self (db : Store) (t : String) (rs : List (List SqlVal))
    (h : (db.rows t).isSome) : (db.setRows t rs).rows t = some rs :=
  lookup_setRowsList t rs db.tabs h

/-- One step of the `maxKey` fold. -/
def maxKeyStep (acc : Int) (row : List SqlVal) : Int :=
  match row.head? with
  | some (.intV k) => max acc k
  | _ => acc

theorem maxKey_eq_foldl (rows : List (List SqlVal)) :
    maxKey rows = rows.foldl maxKeyStep 0 := rfl

theorem le_foldl_maxKeyStep (rows : List (List SqlVal)) :
    ∀ acc : Int, acc ≤ rows.foldl maxKeyStep acc := by
  induction rows with
  | nil => intro acc; exact le_refl _
  | cons row tl ih =>
    intro acc
    have h1 : acc ≤ maxKeyStep acc row := by
      unfold maxKeyStep
      split
      · exact le_max_left _ _
      · exact le_refl _
    exact le_trans h1 (ih _)

theorem mem_le_foldl_maxKeyStep (rows : List (List SqlVal)) :
    ∀ (acc : Int) (row : List SqlVal) (j : Int), row ∈ rows →
      row.head? = some (.intV j) → j ≤ rows.foldl maxKeyStep acc := by
  induction rows with
  | nil => intro _ _ _ h; simp at h
  | cons r0 tl ih =>
    intro acc row j hmem hhead
    rcases List.mem_cons.mp hmem with h | h
    · subst h
      have h1 : j ≤ maxKeyStep acc row := by
        unfold maxKeyStep
        rw [hhead]
        exact le_max_right _ _
      simp only [List.foldl_cons]
      exact le_trans h1 (le_foldl_maxKeyStep tl _)
    · simp only [List.foldl_cons]
      exact ih _ row j h hhead

theorem maxKey_nonneg (rows : List (List SqlVal)) : 0 ≤ maxKey rows :=
  le_foldl_maxKeyStep rows 0

theorem maxKey_ge (rows : List (List SqlVal)) (row : List SqlVal) (j : Int)
    (hmem : row ∈ rows) (hhead : row.head? = some (.intV j)) : j ≤ maxKey rows :=
  mem_le_foldl_maxKeyStep rows 0 row j hmem hhead

theorem lookup_map_bind_none (l : List DbValue) (n : String)
    (hn : ¬ n ∈ l.map DbValue.name) :
    (l.map fun u => (u.name, bindStmtParameter u)).lookup n = none := by
  induction l with
  | nil => rfl
  | cons v tl ih =>
    simp only [List.map_cons, List.mem_cons, not_or] at hn
    simp only [List.map_cons, List.lookup,
      show (n == v.name) = false from beq_eq_false_iff_ne.mpr hn.1]
    exact ih hn.2

theorem lookup_map_bind_mem (l : List DbValue) (hnd : (l.map DbValue.name).Nodup)
    (v : DbValue) (hv : v ∈ l) :
    (l.map fun u => (u.name, bindStmtParameter u)).lookup v.name
      = some (bindStmtParameter v) := by
  induction l with
  | nil => simp at hv
  | cons u tl ih =>
    simp only [List.map_cons, List.nodup_cons] at hnd
    rcases List.mem_cons.mp hv with h | h
    · subst h
      simp [List.lookup]
    · have hne : (v.name == u.name) = false := by
        refine beq_eq_false_iff_ne.mpr fun hcon => hnd.1 ?_
        rw [← hcon]
        exact List.mem_map_of_mem _ h
      simp only [List.map_cons, List.lookup, hne]
      exact ih hnd.2 h

theorem find?_append_of_none {α : Type} (p : α → Bool) (l1 l2 : List α)
    (h : ∀ x ∈ l1, p x = false) : (l1 ++ l2).find? p = l2.find? p := by
  induction l1 with
  | nil => rfl
  | cons a tl ih =>
    simp only [List.cons_append, List.find?, h a (by simp)]
    exact ih fun x hx => h x (by simp [hx])

theorem setFields_append_of_not_mem (pre fs : List Field) (n : String) (v : SetVal)
    (h : ¬ n ∈ pre.map Field.name) :
    setFields (pre ++ fs) n v = pre ++ setFields fs n v := by
  induction pre with
  | nil => rfl
  | cons f tl ih =>
    simp only [List.map_cons, List.mem_cons, not_or] at h
    have hfn : ¬ (f.name = n) := fun hc => h.1 hc.symm
    simp only [List.cons_append, setFields, if_neg hfn]
    rw [show (tl.append fs) = tl ++ fs from rfl, ih h.2]

/-- The update applied to one field when its column is decoded. -/
def fillUpd (g : Field) (v : SqlVal) : Field :=
  { g with content := applySet g.content (columnToSet g.content.dtype v) }

theorem fillLoop_spec (tbl : String) (gs : List Field) :
    ∀ (pre : List Field) (vs : List SqlVal),
      gs.length = vs.length →
      ((pre ++ gs).map Field.name).Nodup →
      fillLoop ⟨tbl, pre ++ gs⟩ ((gs.map Field.toSchema).zip vs) =
        ⟨tbl, pre ++ gs.zipWith fillUpd vs⟩ := by
  induction gs with
  | nil =>
    intro pre vs _ _
    simp [fillLoop]
  | cons g gt ih =>
    intro pre vs hlen hnd
    cases vs with
    | nil => simp at hlen
    | cons v vt =>
      have hgname : ¬ g.name ∈ pre.map Field.name := by
        intro hcon
        have hnd2 := hnd
        rw [List.map_append] at hnd2
        have hdisj := (List.nodup_append.mp hnd2).2.2
        exact hdisj hcon (by simp)
      have hset : (Record.mk tbl (pre ++ g :: gt)).setValue g.name
          (columnToSet g.content.dtype v) = ⟨tbl, (pre ++ [fillUpd g v]) ++ gt⟩ := by
        unfold Record.setValue
        simp only
        rw [setFields_append_of_not_mem _ _ _ _ hgname]
        simp only [setFields, if_pos rfl]
        simp [fillUpd, List.append_assoc]
      have hnd2 : (((pre ++ [fillUpd g v]) ++ gt).map Field.name).Nodup := by
        have hieq : ((pre ++ [fillUpd g v]) ++ gt).map Field.name
            = (pre ++ g :: gt).map Field.name := by
          simp [fillUpd]
        rw [hieq]
        exact hnd
      have ih2 := ih (pre ++ [fillUpd g v]) vt (by simpa using hlen) hnd2
      simp only [List.map_cons, List.zip_cons_cons, fillLoop, List.zipWith_cons_cons]
      show fillLoop ((Record.mk tbl (pre ++ g :: gt)).setValue g.name
          (columnToSet g.content.dtype v)) ((gt.map Field.toSchema).zip vt) = _
      rw [hset, ih2]
      simp [List.append_assoc]

theorem fillEntity_spec (tbl : String) (gs : List Field) (row : List SqlVal)
    (hlen : gs.length = row.length) (hnd : (gs.map Field.name).Nodup) :
    fillEntity ⟨tbl, gs⟩ row = ⟨tbl, gs.zipWith fillUpd row⟩ := by
  unfold fillEntity
  have hs : (Record.mk tbl gs).schema = gs.map Field.toSchema := rfl
  rw [hs]
  exact fillLoop_spec tbl gs [] row hlen (by simpa using hnd)

/-- Binding an encoded field does not depend on the field's name or
foreign table. -/
theorem bind_encode_content (n fk : String) (c : FieldContent) :
    bindStmtParameter (encodeField ⟨n, fk, c⟩)
      = bindStmtParameter (encodeField ⟨"x", "", c⟩) := by
  cases c <;> rfl

theorem sameShape_dtype {a b : FieldContent} (h : a.sameShape b) :
    a.dtype = b.dtype := by
  cases a <;> cases b <;> simp_all [FieldContent.sameShape, FieldContent.dtype]

/-- A store-assigned key that fits the signed range of the key field's
byte width survives truncation to the field, re-encoding and
re-binding. -/
theorem encode_take_roundtrip (k : Int) (w : Nat) (hw1 : 1 ≤ w) (hw8 : w ≤ 8)
    (h0 : 0 ≤ k) (hfit : k < 2 ^ (8 * w - 1)) :
    bytesToInt64 (encodeIntBytes ((int64ToBytes k).take w)) = k := by
  have hk63 : k < 2 ^ 63 := by
    have hle : (2 : Int) ^ (8 * w - 1) ≤ 2 ^ 63 :=
      pow_le_pow_right (by norm_num) (by omega)
    exact lt_of_lt_of_le hfit hle
  have hmod : (k % (2 ^ 64)).toNat = k.toNat := by
    rw [show ((2 : Int) ^ 64) = 18446744073709551616 from by norm_num]
    have : k < 9223372036854775808 := by
      rw [show ((9223372036854775808 : Int)) = 2 ^ 63 from by norm_num]
      exact hk63
    omega
  have hbs : (int64ToBytes k).take w = natToBytes w k.toNat := by
    unfold int64ToBytes
    rw [hmod, natToBytes_take w 8 _ hw8]
  rw [hbs]
  set bs := natToBytes w k.toNat with hbsdef
  have hlen : bs.length = w := natToBytes_length w _
  have hb : ∀ b ∈ bs, b < 256 := natToBytes_lt w _
  have hne : bs ≠ [] := by
    intro hcon
    rw [hcon] at hlen
    simp at hlen
    omega
  have hval : leVal bs = k.toNat := by
    rw [hbsdef, leVal_natToBytes]
    refine Nat.mod_eq_of_lt ?_
    have hpow : (2 : Int) ^ (8 * w - 1) ≤ (256 : Int) ^ w := by
      have h1 : ((256 : Int)) ^ w = 2 ^ (8 * w) := by
        rw [show ((256 : Int)) = 2 ^ 8 from by norm_num, ← pow_mul]
      rw [h1]
      exact pow_le_pow_right (by norm_num) (by omega)
    have hklt : (k : Int) < (256 : Int) ^ w := lt_of_lt_of_le hfit hpow
    have hcast : ((256 : Int) ^ w) = ((256 ^ w : Nat) : Int) := by push_cast; ring
    rw [hcast] at hklt
    omega
  have hsmall : 2 * leVal bs < 256 ^ bs.length := by
    rw [hval, hlen]
    have hpow : 2 * (2 : Int) ^ (8 * w - 1) = 2 ^ (8 * w) := by
      rw [← pow_succ']
      congr 1
      omega
    have h256 : ((256 ^ w : Nat) : Int) = 2 ^ (8 * w) := by
      push_cast
      rw [show ((256 : Int)) = 2 ^ 8 from by norm_num, ← pow_mul]
    have : 2 * (k : Int) < ((256 ^ w : Nat) : Int) := by
      rw [h256, ← hpow]
      omega
    omega
  have hfill : signFill bs = 0 := by
    unfold signFill
    rw [if_pos ((getLast_sign_iff bs hne hb).mpr hsmall)]
  have hslot : leVal (encodeIntBytes bs) = leVal bs := by
    unfold encodeIntBytes
    rw [hfill, leVal_append, leVal_replicate_zero]
    ring
  unfold bytesToInt64
  rw [hslot, hval]
  have hk63n : k.toNat < 2 ^ 63 := by omega
  rw [if_pos hk63n]
  omega

theorem map_encodeField_names (fs : List Field) :
    (fs.map encodeField).map DbValue.name = fs.map Field.name := by
  induction fs with
  | nil => rfl
  | cons f tl ih =>
    simp only [List.map_cons, ih]
    rfl

theorem bindStmtParameters_auto (values : List DbValue) (h : autoKeyB values = true) :
    bindStmtParameters values false
      = (values.drop 1).map fun v => (v.name, bindStmtParameter v) := by
  unfold bindStmtParameters
  simp [h]

theorem bindStmtParameters_explicit (values : List DbValue) (h : autoKeyB values = false) :
    bindStmtParameters values false = values.map fun v => (v.name, bindStmtParameter v) := by
  unfold bindStmtParameters
  simp [h]

theorem lookup_bind_head (f0 : Field) (tl : List DbValue) :
    ((encodeField f0 :: tl).map fun v => (v.name, bindStmtParameter v)).lookup f0.name
      = some (bindStmtParameter (encodeField f0)) := by
  have hn : (encodeField f0).name = f0.name := rfl
  simp [List.lookup, hn]

theorem sqliteInsert_ok_inv (db : Store) (table : String) (keycol : dbValueSchema)
    (rest : List dbValueSchema) (binds : List (String × SqlVal))
    (rs : List (List SqlVal)) (out : Store × Int)
    (hrows : db.rows table = some rs)
    (hok : sqliteInsert db table (keycol :: rest) binds = .ok out) :
    ∃ keyVal, insertKeyRes db rs keycol binds = .ok keyVal ∧
      fkColsOkB db rest binds = true ∧
      out = (db.setRows table
        (rs ++ [keyVal :: rest.map fun c => (binds.lookup c.name).getD .nullV]),
        match keyVal with
        | .intV k => k
        | _ => 0) := by
  unfold sqliteInsert at hok
  simp only [hrows] at hok
  cases hkey : insertKeyRes db rs keycol binds with
  | error e =>
    simp only [hkey] at hok
    simp at hok
  | ok keyVal =>
    simp only [hkey] at hok
    by_cases hfk : fkColsOkB db rest binds = true
    · rw [if_pos hfk] at hok
      injection hok with h
      exact ⟨keyVal, rfl, hfk, h.symm⟩
    · rw [if_neg hfk] at hok
      simp at hok

theorem insertKeyRes_none_inv (db : Store) (rs : List (List SqlVal))
    (keycol : dbValueSchema) (binds : List (String × SqlVal)) (keyVal : SqlVal)
    (hlookup : binds.lookup keycol.name = none)
    (hok : insertKeyRes db rs keycol binds = .ok keyVal) :
    keycol.type = DB_INTEGER ∧ keycol.foreignKey = "" ∧
      keyVal = .intV (maxKey rs + 1) := by
  unfold insertKeyRes at hok
  simp only [hlookup] at hok
  by_cases hc : keycol.type = DB_INTEGER ∧ keycol.foreignKey = ""
  · rw [if_pos hc] at hok
    injection hok with h
    exact ⟨hc.1, hc.2, h.symm⟩
  · rw [if_neg hc] at hok
    simp at hok

theorem insertKeyRes_some_inv (db : Store) (rs : List (List SqlVal))
    (keycol : dbValueSchema) (binds : List (String × SqlVal)) (v keyVal : SqlVal)
    (hlookup : binds.lookup keycol.name = some v)
    (hok : insertKeyRes db rs keycol binds = .ok keyVal) :
    keyVal = v ∧ rs.any (fun row => decide (row.head? = some v)) = false := by
  unfold insertKeyRes at hok
  simp only [hlookup] at hok
  cases hdup : rs.any (fun row => decide (row.head? = some v)) with
  | true =>
    rw [if_pos hdup] at hok
    simp at hok
  | false =>
    rw [if_neg (by simp [hdup])] at hok
    by_cases hfk : keycol.foreignKey = ""
    · rw [if_pos hfk] at hok
      injection hok with h
      exact ⟨h.symm, rfl⟩
    · rw [if_neg hfk] at hok
      by_cases hfkok : fkOkB db keycol.foreignKey v = true
      · rw [if_pos hfkok] at hok
        injection hok with h
        exact ⟨h.symm, rfl⟩
      · rw [if_neg hfkok] at hok
        simp at hok

/-! ## Claim theorems -/

/-- C10: For the empty vector of entities, each of `SaveEntities`,
`UpdateEntities` and `DeleteEntities` raises the "there was no entities
to save" error instead of performing no operation and returning
normally; no connection is opened (the event trace is empty) and the
store is untouched. -/
theorem C10_empty_batches (db : Store) :
    saveEntities db [] = ⟨.error .noEntities, db, [], []⟩ ∧
    updateEntities db [] = ⟨.error .noEntities, db, [], []⟩ ∧
    deleteEntities db [] = ⟨.error .noEntities, db, [], []⟩ :=
  ⟨rfl, rfl, rfl⟩

/-- C9: `RegisterField`/`SavePrototype` appends a descriptor, so
registration order is preserved as schema and storage order, and fails
with the registration error when the supplied name is already
registered for this instance, leaving the registry (and hence the
schema) unchanged in that case. -/
theorem C9_registration (reg : List Field) (p : Field) :
    (p.name ∈ reg.map Field.name →
      savePrototype reg p =
        (.error (.assertFail "value with that name is already registered"), reg)) ∧
    (¬ p.name ∈ reg.map Field.name →
      savePrototype reg p = (.ok (), reg ++ [p]) ∧
      (reg ++ [p]).map Field.toSchema = reg.map Field.toSchema ++ [p.toSchema]) := by
  constructor
  · intro h
    unfold savePrototype
    rw [if_pos h]
  · intro h
    unfold savePrototype
    rw [if_neg h]
    exact ⟨rfl, by simp⟩

theorem C9_registration_witness :
    savePrototype [⟨"a", "", .intF [0]⟩] ⟨"a", "", .intF [1]⟩ =
      (.error (.assertFail "value with that name is already registered"),
        [⟨"a", "", .intF [0]⟩]) ∧
    savePrototype [⟨"a", "", .intF [0]⟩] ⟨"b", "", .intF [1]⟩ =
      (.ok (), [⟨"a", "", .intF [0]⟩, ⟨"b", "", .intF [1]⟩]) :=
  ⟨(C9_registration [⟨"a", "", .intF [0]⟩] ⟨"a", "", .intF [1]⟩).1 (by simp),
   ((C9_registration [⟨"a", "", .intF [0]⟩] ⟨"b", "", .intF [1]⟩).2 (by simp)).1⟩

/-- C6: `UpdateEntity` binds every column including the zeroth key
column (the binding list is the full value list, name for name), and
never writes anything back into the record: on every path, the record
after the call is the record as it stood at the moment of the call. -/
theorem C6_update_binds_all_no_writeback (db : Store) (r : Record) :
    (updateEntity db r).record = r ∧
    bindStmtParameters r.getValues true =
      r.getValues.map fun v => (v.name, bindStmtParameter v) := by
  constructor
  · unfold updateEntity
    split
    · rfl
    · split <;> rfl
  · unfold bindStmtParameters
    simp

/-- C5: For a registered integer field of byte width `w ≤ 8`, the
encoded `DbValue` carries the canonical signed 8-byte slot whose low
`w` bytes are the field's bytes verbatim and whose upper `8 - w` bytes
are all ones exactly when the sign bit of the highest supplied byte is
set and all zeros otherwise; the slot read as a 64-bit signed integer
is the sign-extended two's-complement value of the narrow field. -/
theorem C5_integer_sign_extension (bs : List Nat) (hne : bs ≠ [])
    (hlen : bs.length ≤ 8) (hb : ∀ b ∈ bs, b < 256) :
    encodeContent (.intF bs) = .ints (encodeIntBytes bs) ∧
    (encodeIntBytes bs).take bs.length = bs ∧
    (encodeIntBytes bs).drop bs.length =
      List.replicate (8 - bs.length)
        (if 128 ≤ bs.getLast?.getD 0 then 255 else 0) ∧
    bytesToInt64 (encodeIntBytes bs) = bytesToIntW bs := by
  have hmem : bs.getLast?.getD 0 ∈ bs := by
    cases bs with
    | nil => exact absurd rfl hne
    | cons b tl =>
      rw [List.getLast?_eq_getLast _ (by simp)]
      simp only [Option.getD_some]
      exact List.getLast_mem _
  have hlast : bs.getLast?.getD 0 < 256 := hb _ hmem
  have hiff : (bs.getLast?.getD 0 &&& 128 = 0) ↔ bs.getLast?.getD 0 < 128 :=
    land128_eq_zero_iff _ hlast
  refine ⟨rfl, ?_, ?_, bytesToInt64_encodeIntBytes bs hne hlen hb⟩
  · unfold encodeIntBytes
    exact take_append_self _ _
  · unfold encodeIntBytes
    rw [List.drop_left]
    congr 1
    unfold signFill
    by_cases hc : 128 ≤ bs.getLast?.getD 0
    · rw [if_neg (fun h0 => absurd (hiff.mp h0) (by omega)), if_pos hc]
    · rw [if_pos (hiff.mpr (by omega)), if_neg hc]

theorem C5_integer_sign_extension_witness :
    bytesToInt64 (encodeIntBytes [255]) = bytesToIntW [255] ∧
    bytesToIntW [255] = -1 ∧ encodeIntBytes [255] = List.replicate 8 255 :=
  ⟨(C5_integer_sign_extension [255] (by decide) (by decide) (by decide)).2.2.2,
   by decide, by decide⟩

/-- C4: When `RetrieveEntity` executes its SELECT by the record's key
and the store holds no row with that key, the call raises the
row-not-found error (the `assert(rc == SQLITE_ROW)` after the
`SQLITE_DONE` step) and decodes nothing: the record and the store are
unchanged. -/
theorem C4_retrieve_not_found (db : Store) (r : Record)
    (rs : List (List SqlVal))
    (hlen : ¬ r.schema.length ≤ 1)
    (hrows : db.rows r.tableName = some rs)
    (hnone : ∀ row ∈ rs, row.head? ≠ some r.keyBindVal) :
    (retrieveEntity db r).res = .error (.assertFail "rc == SQLITE_ROW") ∧
    (retrieveEntity db r).record = r ∧
    (retrieveEntity db r).db = db := by
  have hfind : rs.find? (fun row => decide (row.head? = some r.keyBindVal)) = none := by
    rw [List.find?_eq_none]
    intro row hmem
    simp [hnone row hmem]
  unfold retrieveEntity
  rw [if_neg hlen]
  simp [hrows, hfind]

theorem C4_retrieve_not_found_witness :
    (retrieveEntity ⟨[("t", [])]⟩
        ⟨"t", [⟨"id", "", .intF [1]⟩, ⟨"v", "", .intF [2]⟩]⟩).res =
      .error (.assertFail "rc == SQLITE_ROW") ∧
    (retrieveEntity ⟨[("t", [])]⟩
        ⟨"t", [⟨"id", "", .intF [1]⟩, ⟨"v", "", .intF [2]⟩]⟩).record =
      ⟨"t", [⟨"id", "", .intF [1]⟩, ⟨"v", "", .intF [2]⟩]⟩ ∧
    (retrieveEntity ⟨[("t", [])]⟩
        ⟨"t", [⟨"id", "", .intF [1]⟩, ⟨"v", "", .intF [2]⟩]⟩).db = ⟨[("t", [])]⟩ :=
  C4_retrieve_not_found ⟨[("t", [])]⟩
    ⟨"t", [⟨"id", "", .intF [1]⟩, ⟨"v", "", .intF [2]⟩]⟩ []
    (by decide) (by rfl) (by simp)

/-- C8 counterexample: `SetStrValue` on an integer field with the text
`"123abc"`, which is not a valid decimal representation of an integer,
does not fail: `stol` parses the numeric prefix `123`, ignores the
trailing `"abc"`, and the field is overwritten with 123. -/
theorem C8_counterexample :
    setStrValue (fun _ => none)
      ⟨"t", [⟨"id", "", .intF [0, 0, 0, 0, 0, 0, 0, 0]⟩,
             ⟨"n", "", .intF [0, 0, 0, 0, 0, 0, 0, 0]⟩]⟩
      "n" "123abc"
      = .ok ⟨"t", [⟨"id", "", .intF [0, 0, 0, 0, 0, 0, 0, 0]⟩,
             ⟨"n", "", .intF [123, 0, 0, 0, 0, 0, 0, 0]⟩]⟩ := by
  rfl

/-- C8 (amended): `SetStrValue(name, text)` fails with the
lookup error when `name` is unregistered; otherwise it converts per the
registered kind — integer via `stol`, float via `stod` (both accept any
text with a parseable numeric prefix, ignoring trailing characters, and
fail only when no conversion is possible or the value is out of range),
text/timestamp passed through — and delegates the converted value to
`SetValue`.  On a conversion failure the error propagates before
`SetValue` is reached, so the field is left unchanged. -/
theorem C8_setStrValue_amended (stodFn : String → Option (List Nat))
    (r : Record) (n : String) (s : String) (f : Field)
    (hf : r.findField n = some f) :
    (f.content.dtype = DB_INTEGER →
      (stolM s = none → setStrValue stodFn r n s = .error .parseError) ∧
      (∀ v : Int, stolM s = some v →
        setStrValue stodFn r n s = .ok (r.setValue n (.i64 v)))) ∧
    (f.content.dtype = DB_FLOAT →
      (stodFn s = none → setStrValue stodFn r n s = .error .parseError) ∧
      (∀ bits, stodFn s = some bits →
        setStrValue stodFn r n s = .ok (r.setValue n (.f64 bits)))) ∧
    ((f.content.dtype = DB_TEXT ∨ f.content.dtype = DB_TIME) →
      setStrValue stodFn r n s = .ok (r.setValue n (.str s))) := by
  unfold setStrValue
  simp only [hf]
  refine ⟨?_, ?_, ?_⟩
  · intro ht
    simp only [ht]
    constructor
    · intro hs
      simp only [hs]
    · intro v hs
      simp only [hs]
  · intro ht
    simp only [ht]
    constructor
    · intro hs
      simp only [hs]
    · intro bits hs
      simp only [hs]
  · intro ht
    rcases ht with h | h <;> simp only [h]

theorem C8_setStrValue_amended_witness :
    setStrValue (fun _ => none)
      ⟨"t", [⟨"id", "", .intF [0]⟩, ⟨"n", "", .intF [0, 0]⟩]⟩ "n" "xy"
      = .error .parseError :=
  ((C8_setStrValue_amended (fun _ => none)
      ⟨"t", [⟨"id", "", .intF [0]⟩, ⟨"n", "", .intF [0, 0]⟩]⟩ "n" "xy"
      ⟨"n", "", .intF [0, 0]⟩ (by rfl)).1 rfl).1 rfl

/-- C2: `SaveEntity(record)` omits the primary-key placeholder from
binding if and only if the record's zeroth value has Integer kind and
its canonical 8-byte value is zero (`autoKeyB`); exactly in that case,
when the insert executes successfully, the store-assigned row
identifier — the next rowid, which is nonzero — is written back into
the record's key field via `SetValue`; in every other case the record
is left unchanged. -/
theorem C2_save_key_binding (db : Store) (r : Record) (rs : List (List SqlVal))
    (hwf : r.wf) (hrows : db.rows r.tableName = some rs) :
    ((bindStmtParameters r.getValues false).lookup r.keyName = none ↔
      autoKeyB r.getValues = true) ∧
    (autoKeyB r.getValues = true → (saveEntity db r).res = .ok () →
      ∃ k : Int, k ≠ 0 ∧ k = maxKey rs + 1 ∧
        (saveEntity db r).record = r.setValue r.keyName (.i64 k)) ∧
    (autoKeyB r.getValues = false → (saveEntity db r).record = r) := by
  obtain ⟨tbl, fields⟩ := r
  obtain ⟨hlen2, hnd, hcwf⟩ := hwf
  simp only at hlen2 hnd hcwf
  cases fields with
  | nil => simp at hlen2
  | cons f0 ftail =>
  have hkeyname : (Record.mk tbl (f0 :: ftail)).keyName = f0.name := rfl
  have hvalues : (Record.mk tbl (f0 :: ftail)).getValues
      = encodeField f0 :: ftail.map encodeField := rfl
  have hnotin : ¬ f0.name ∈ ftail.map Field.name := by
    have h := hnd
    simp only [List.map_cons, List.nodup_cons] at h
    exact h.1
  have hlen1 : ¬ ((Record.mk tbl (f0 :: ftail)).schema.length ≤ 1) := by
    simp only [Record.schema, List.map_cons, List.length_cons, List.length_map]
    simp only [List.length_cons] at hlen2
    omega
  refine ⟨?_, ?_, ?_⟩
  · -- omission of the key placeholder iff the zero sentinel
    cases hauto : autoKeyB (Record.mk tbl (f0 :: ftail)).getValues with
    | true =>
      rw [bindStmtParameters_auto _ hauto, hkeyname, hvalues]
      simp only [List.drop_succ_cons, List.drop_zero]
      rw [lookup_map_bind_none]
      · simp
      · rw [map_encodeField_names]
        exact hnotin
    | false =>
      rw [bindStmtParameters_explicit _ hauto, hkeyname, hvalues]
      rw [lookup_bind_head]
      simp
  · -- auto key: the assigned rowid is written back
    intro hauto hok
    cases hins : sqliteInsert db (Record.mk tbl (f0 :: ftail)).tableName
        (Record.mk tbl (f0 :: ftail)).schema
        (bindStmtParameters (Record.mk tbl (f0 :: ftail)).getValues false) with
    | error e =>
      unfold saveEntity at hok
      rw [if_neg hlen1] at hok
      simp only [hins] at hok
      simp at hok
    | ok p =>
      obtain ⟨db2, rowid⟩ := p
      have hlookupnone : (bindStmtParameters
          (Record.mk tbl (f0 :: ftail)).getValues false).lookup f0.toSchema.name
            = none := by
        rw [bindStmtParameters_auto _ hauto, hvalues]
        simp only [List.drop_succ_cons, List.drop_zero]
        rw [show f0.toSchema.name = f0.name from rfl, lookup_map_bind_none]
        rw [map_encodeField_names]
        exact hnotin
      obtain ⟨keyVal, hkeyres, hfk, hout⟩ :=
        sqliteInsert_ok_inv db tbl f0.toSchema (ftail.map Field.toSchema) _ rs
          (db2, rowid) hrows hins
      obtain ⟨htype, hfk0, hkv⟩ := insertKeyRes_none_inv db rs f0.toSchema _ keyVal
        hlookupnone hkeyres
      subst hkv
      have hrowid : rowid = maxKey rs + 1 := by
        rw [Prod.mk.injEq] at hout
        exact hout.2
      refine ⟨maxKey rs + 1, ?_, rfl, ?_⟩
      · have := maxKey_nonneg rs
        omega
      · unfold saveEntity
        rw [if_neg hlen1]
        simp only [hins, hauto]
        rw [hrowid]
        rfl
  · -- explicit key: the record is never modified
    intro hauto
    unfold saveEntity
    split
    · rfl
    · split
      · rfl
      · simp [hauto]

theorem C2_save_key_binding_witness :
    (saveEntity ⟨[("t", [])]⟩
        ⟨"t", [⟨"id", "", .intF [0, 0, 0, 0, 0, 0, 0, 0]⟩, ⟨"v", "", .intF [7]⟩]⟩).record
      = (Record.mk "t" [⟨"id", "", .intF [0, 0, 0, 0, 0, 0, 0, 0]⟩,
          ⟨"v", "", .intF [7]⟩]).setValue "id" (.i64 1) := by
  obtain ⟨k, hk0, hkeq, hrec⟩ :=
    (C2_save_key_binding ⟨[("t", [])]⟩
      ⟨"t", [⟨"id", "", .intF [0, 0, 0, 0, 0, 0, 0, 0]⟩, ⟨"v", "", .intF [7]⟩]⟩
      [] (by decide) (by rfl)).2.1 (by rfl) (by rfl)
  have hk1 : k = 1 := by
    rw [hkeq]
    rfl
  rw [hk1] at hrec
  exact hrec

/-- C7: `RetrieveChildEntities<T>(parent)` scans T's schema in
registration order for a column whose declared foreign table equals the
parent's table name.  Without such a column it returns an empty vector
without executing any query (empty event trace, store untouched).
With one, it returns exactly the T-records decoded from the rows whose
value in the first such column equals the parent's (integer) key value,
in the store's natural row order. -/
theorem C7_retrieve_children (db : Store) (t : Record) (parent : Record) :
    (t.schema.find? (fun c => decide (c.foreignKey = parent.tableName)) = none →
      retrieveChildEntities db t parent = ⟨.ok [], db, []⟩) ∧
    (∀ c, t.schema.find? (fun c => decide (c.foreignKey = parent.tableName)) = some c →
      ∀ (pf : Field) (bs : List Nat),
        parent.fields.head? = some pf →
        pf.content = .intF bs →
        1 ≤ bs.length → bs.length ≤ 8 → (∀ b ∈ bs, b < 256) →
        ∀ rs, db.rows t.tableName = some rs →
          ¬ t.schema.length ≤ 1 →
          (retrieveChildEntities db t parent).res =
            .ok ((rs.filter fun row =>
              decide (rowValueAt row (colIndex t.schema c.name)
                = .intV (bytesToIntW bs))).map (fillEntity t)) ∧
          (retrieveChildEntities db t parent).db = db) := by
  constructor
  · intro hfind
    unfold retrieveChildEntities
    simp only [hfind]
  · intro c hfind pf bs hpf hcont hb1 hb8 hblt rs hrows hlen1
    have hbs_ne : bs ≠ [] := by
      intro hcon
      rw [hcon] at hb1
      simp at hb1
    have hpk : (match parent.getValues.head? with
        | some v => v.int64
        | none => 0) = bytesToIntW bs := by
      cases hpfields : parent.fields with
      | nil => rw [hpfields] at hpf; simp at hpf
      | cons q qs =>
        rw [hpfields] at hpf
        simp only [List.head?_cons, Option.some.injEq] at hpf
        have hqcont : q.content = FieldContent.intF bs := by
          rw [hpf]
          exact hcont
        have hgv : parent.getValues.head? = some (encodeField q) := by
          unfold Record.getValues
          rw [hpfields]
          rfl
        rw [hgv]
        simp only
        have hint : (encodeField q).int64 = bytesToInt64 (encodeIntBytes bs) := by
          unfold encodeField DbValue.int64 encodeContent
          rw [hqcont]
        rw [hint]
        exact bytesToInt64_encodeIntBytes bs hbs_ne hb8 hblt
    unfold retrieveChildEntities
    simp only [hfind, hpk]
    unfold retrieveEntitiesEq
    rw [if_neg hlen1]
    simp [hrows]

theorem C7_retrieve_children_witness :
    (retrieveChildEntities
        ⟨[("child", [[.intV 1, .intV 5], [.intV 2, .intV 7]])]⟩
        ⟨"child", [⟨"cid", "", .intF [0, 0, 0, 0, 0, 0, 0, 0]⟩,
                   ⟨"pid", "parent", .intF [0, 0, 0, 0, 0, 0, 0, 0]⟩]⟩
        ⟨"parent", [⟨"pid", "", .intF [5, 0, 0, 0, 0, 0, 0, 0]⟩,
                    ⟨"x", "", .intF [1]⟩]⟩).res
      = .ok [⟨"child", [⟨"cid", "", .intF [1, 0, 0, 0, 0, 0, 0, 0]⟩,
                        ⟨"pid", "parent", .intF [5, 0, 0, 0, 0, 0, 0, 0]⟩]⟩] := by
  have h := ((C7_retrieve_children
      ⟨[("child", [[.intV 1, .intV 5], [.intV 2, .intV 7]])]⟩
      ⟨"child", [⟨"cid", "", .intF [0, 0, 0, 0, 0, 0, 0, 0]⟩,
                 ⟨"pid", "parent", .intF [0, 0, 0, 0, 0, 0, 0, 0]⟩]⟩
      ⟨"parent", [⟨"pid", "", .intF [5, 0, 0, 0, 0, 0, 0, 0]⟩,
                  ⟨"x", "", .intF [1]⟩]⟩).2
      ⟨"pid", DB_INTEGER, 8, "parent"⟩ (by rfl)
      ⟨"pid", "", .intF [5, 0, 0, 0, 0, 0, 0, 0]⟩ [5, 0, 0, 0, 0, 0, 0, 0]
      (by rfl) (by rfl) (by decide) (by decide) (by decide)
      [[.intV 1, .intV 5], [.intV 2, .intV 7]] (by rfl) (by decide)).1
  rw [h]
  rfl

theorem getValues_nil_of_fields_nil (r : Record) (h : r.fields = []) :
    r.getValues = [] := by
  unfold Record.getValues
  rw [h]
  rfl

theorem getValues_cons (r : Record) (f0 : Field) (ft : List Field)
    (h : r.fields = f0 :: ft) :
    r.getValues = encodeField f0 :: ft.map encodeField := by
  unfold Record.getValues
  rw [h]
  rfl

theorem schema_cons (r : Record) (f0 : Field) (ft : List Field)
    (h : r.fields = f0 :: ft) :
    r.schema = f0.toSchema :: ft.map Field.toSchema := by
  unfold Record.schema
  rw [h]
  rfl

theorem autoKeyB_false_of_nonzero (r : Record) (v : DbValue) (k : Int)
    (h : r.getValues.head? = some v) (_ht : v.type = DB_INTEGER)
    (hv : v.int64 = k) (hk : k ≠ 0) : autoKeyB r.getValues = false := by
  unfold autoKeyB
  rw [h]
  simp only [hv]
  simp [hk]

theorem bindStmtParameter_int (v : DbValue) (k : Int)
    (ht : v.type = DB_INTEGER) (hv : v.int64 = k) :
    bindStmtParameter v = .intV k := by
  unfold bindStmtParameter
  rw [ht, hv]

/-- An explicit integer key that already exists in the table makes the
`INSERT` step fail with the constraint error. -/
theorem sqliteInsert_dup_key_error (work : Store) (r : Record)
    (rs2 : List (List SqlVal)) (k : Int) (v : DbValue)
    (g0 : Field) (gt : List Field)
    (hf : r.fields = g0 :: gt)
    (hrows : work.rows r.tableName = some rs2)
    (hhead : r.getValues.head? = some v)
    (ht : v.type = DB_INTEGER) (hv : v.int64 = k) (hk : k ≠ 0)
    (hdup : rs2.any (fun row => decide (row.head? = some (SqlVal.intV k))) = true) :
    sqliteInsert work r.tableName r.schema (bindStmtParameters r.getValues false)
      = .error .cannotStep := by
  have hauto : autoKeyB r.getValues = false :=
    autoKeyB_false_of_nonzero r v k hhead ht hv hk
  have hvals : r.getValues = encodeField g0 :: gt.map encodeField := getValues_cons r g0 gt hf
  have hvenc : v = encodeField g0 := by
    rw [hvals] at hhead
    simp only [List.head?_cons, Option.some.injEq] at hhead
    exact hhead.symm
  have hbindk : bindStmtParameter (encodeField g0) = .intV k := by
    rw [← hvenc]
    exact bindStmtParameter_int v k ht hv
  have hlookup : (bindStmtParameters r.getValues false).lookup g0.toSchema.name
      = some (SqlVal.intV k) := by
    rw [bindStmtParameters_explicit _ hauto, hvals,
      show g0.toSchema.name = g0.name from rfl, lookup_bind_head, hbindk]
  have hkr : insertKeyRes work rs2 g0.toSchema (bindStmtParameters r.getValues false)
      = .error .cannotStep := by
    unfold insertKeyRes
    simp only [hlookup]
    rw [if_pos hdup]
  rw [schema_cons r g0 gt hf]
  unfold sqliteInsert
  simp only [hrows, hkr]

/-- C3: A failing insert within `SaveEntities` fails the whole batch and
the store is left unchanged (the transaction is never committed and the
engine's rollback-on-close undoes every insert of the batch).  In
particular a batch of two records carrying the same explicit non-zero
integer key always fails — whichever record's step first fails — with
no row persisted. -/
theorem C3_batch_atomicity :
    (∀ (db : Store) (entities : List Record) (e : DalError),
      (saveEntities db entities).res = .error e →
        (saveEntities db entities).db = db) ∧
    (∀ (db : Store) (r1 r2 : Record) (k : Int) (v1 v2 : DbValue),
      r1.tableName = r2.tableName →
      r1.getValues.head? = some v1 → v1.type = DB_INTEGER → v1.int64 = k →
      r2.getValues.head? = some v2 → v2.type = DB_INTEGER → v2.int64 = k →
      k ≠ 0 →
      (∃ e, (saveEntities db [r1, r2]).res = .error e) ∧
      (saveEntities db [r1, r2]).db = db) := by
  have rollback : ∀ (db : Store) (entities : List Record) (e : DalError),
      (saveEntities db entities).res = .error e →
        (saveEntities db entities).db = db := by
    intro db entities e herr
    unfold saveEntities at herr ⊢
    by_cases hemp : entities.isEmpty
    · rw [if_pos hemp]
    · rw [if_neg hemp] at herr ⊢
      have hsplit : saveEntitiesLoop db "" entities
          = ((saveEntitiesLoop db "" entities).1,
             (saveEntitiesLoop db "" entities).2.1,
             (saveEntitiesLoop db "" entities).2.2) := rfl
      rw [hsplit] at herr ⊢
      cases hres : (saveEntitiesLoop db "" entities).1 with
      | ok u =>
        rw [hres] at herr
        exact Except.noConfusion
          (show (Except.ok () : Except DalError Unit) = .error e from herr)
      | error e2 => rfl
  refine ⟨rollback, ?_⟩
  intro db r1 r2 k v1 v2 htbl h1 ht1 hv1 h2 ht2 hv2 hk
  -- it suffices that the loop fails
  suffices hloop : ∃ e, (saveEntitiesLoop db "" [r1, r2]).1 = .error e by
    obtain ⟨e, he⟩ := hloop
    have hres : (saveEntities db [r1, r2]).res = .error e := by
      have hsplit : saveEntitiesLoop db "" [r1, r2]
          = (Except.error e, (saveEntitiesLoop db "" [r1, r2]).2.1,
             (saveEntitiesLoop db "" [r1, r2]).2.2) := by
        rw [← he]
      unfold saveEntities
      rw [if_neg (by simp)]
      rw [hsplit]
    exact ⟨⟨e, hres⟩, rollback db [r1, r2] e hres⟩
  cases hprep : prepareIfNew db "" r1 with
  | error e =>
    exact ⟨e, by simp [saveEntitiesLoop, hprep]⟩
  | ok u =>
    cases hins1 : sqliteInsert db r1.tableName r1.schema
        (bindStmtParameters r1.getValues false) with
    | error e =>
      exact ⟨e, by simp [saveEntitiesLoop, hprep, hins1]⟩
    | ok p =>
      obtain ⟨work2, rowid⟩ := p
      -- r1's fields are nonempty (its first encoded value exists)
      cases hf1 : r1.fields with
      | nil =>
        rw [getValues_nil_of_fields_nil r1 hf1] at h1
        simp at h1
      | cons f0 ft =>
      -- the table exists (the insert stepped)
      cases hrows1 : db.rows r1.tableName with
      | none =>
        unfold sqliteInsert at hins1
        simp only [hrows1] at hins1
        simp at hins1
      | some rs1 =>
      have hauto1 : autoKeyB r1.getValues = false :=
        autoKeyB_false_of_nonzero r1 v1 k h1 ht1 hv1 hk
      have hvals1 : r1.getValues = encodeField f0 :: ft.map encodeField :=
        getValues_cons r1 f0 ft hf1
      have hvenc1 : v1 = encodeField f0 := by
        rw [hvals1] at h1
        simp only [List.head?_cons, Option.some.injEq] at h1
        exact h1.symm
      have hbindk1 : bindStmtParameter (encodeField f0) = .intV k := by
        rw [← hvenc1]
        exact bindStmtParameter_int v1 k ht1 hv1
      have hlookup1 : (bindStmtParameters r1.getValues false).lookup f0.toSchema.name
          = some (SqlVal.intV k) := by
        rw [bindStmtParameters_explicit _ hauto1, hvals1,
          show f0.toSchema.name = f0.name from rfl, lookup_bind_head, hbindk1]
      rw [schema_cons r1 f0 ft hf1] at hins1
      obtain ⟨keyVal1, hkeyres1, hfk1, hout1⟩ :=
        sqliteInsert_ok_inv db r1.tableName f0.toSchema (ft.map Field.toSchema)
          _ rs1 (work2, rowid) hrows1 hins1
      obtain ⟨hkv1, _⟩ := insertKeyRes_some_inv db rs1 f0.toSchema _
        (SqlVal.intV k) keyVal1 hlookup1 hkeyres1
      have hwork2 : work2 = db.setRows r1.tableName
          (rs1 ++ [SqlVal.intV k :: (ft.map Field.toSchema).map fun c =>
            ((bindStmtParameters r1.getValues false).lookup c.name).getD .nullV]) := by
        rw [Prod.mk.injEq] at hout1
        rw [hout1.1, hkv1]
      have hrows2 : work2.rows r2.tableName
          = some (rs1 ++ [SqlVal.intV k :: (ft.map Field.toSchema).map fun c =>
            ((bindStmtParameters r1.getValues false).lookup c.name).getD .nullV]) := by
        rw [← htbl, hwork2]
        exact rows_setRows_self db r1.tableName _ (by rw [hrows1]; rfl)
      -- r2's fields are nonempty
      cases hf2 : r2.fields with
      | nil =>
        rw [getValues_nil_of_fields_nil r2 hf2] at h2
        simp at h2
      | cons g0 gt =>
      have hdup : ((rs1 ++ [SqlVal.intV k :: (ft.map Field.toSchema).map fun c =>
          ((bindStmtParameters r1.getValues false).lookup c.name).getD .nullV]).any
            (fun row => decide (row.head? = some (SqlVal.intV k)))) = true := by
        rw [List.any_eq_true]
        exact ⟨SqlVal.intV k :: (ft.map Field.toSchema).map fun c =>
            ((bindStmtParameters r1.getValues false).lookup c.name).getD .nullV,
          by simp, by simp⟩
      have hins2 := sqliteInsert_dup_key_error work2 r2 _ k v2 g0 gt hf2 hrows2
        h2 ht2 hv2 hk hdup
      have hprep2 : prepareIfNew work2 r1.tableName r2 = .ok () := by
        unfold prepareIfNew
        rw [if_pos htbl.symm]
      refine ⟨.cannotStep, ?_⟩
      simp only [saveEntitiesLoop, hprep, schema_cons r1 f0 ft hf1, hins1, hprep2, hins2]

theorem C3_batch_atomicity_witness :
    (∃ e, (saveEntities ⟨[("t", [])]⟩
      [⟨"t", [⟨"id", "", .intF [9, 0, 0, 0, 0, 0, 0, 0]⟩, ⟨"v", "", .intF [1]⟩]⟩,
       ⟨"t", [⟨"id", "", .intF [9, 0, 0, 0, 0, 0, 0, 0]⟩, ⟨"v", "", .intF [2]⟩]⟩]).res
        = .error e) ∧
    (saveEntities ⟨[("t", [])]⟩
      [⟨"t", [⟨"id", "", .intF [9, 0, 0, 0, 0, 0, 0, 0]⟩, ⟨"v", "", .intF [1]⟩]⟩,
       ⟨"t", [⟨"id", "", .intF [9, 0, 0, 0, 0, 0, 0, 0]⟩, ⟨"v", "", .intF [2]⟩]⟩]).db
      = ⟨[("t", [])]⟩ :=
  C3_batch_atomicity.2 ⟨[("t", [])]⟩
    ⟨"t", [⟨"id", "", .intF [9, 0, 0, 0, 0, 0, 0, 0]⟩, ⟨"v", "", .intF [1]⟩]⟩
    ⟨"t", [⟨"id", "", .intF [9, 0, 0, 0, 0, 0, 0, 0]⟩, ⟨"v", "", .intF [2]⟩]⟩
    9
    (encodeField ⟨"id", "", .intF [9, 0, 0, 0, 0, 0, 0, 0]⟩)
    (encodeField ⟨"id", "", .intF [9, 0, 0, 0, 0, 0, 0, 0]⟩)
    rfl rfl rfl (by decide) rfl rfl (by decide) (by decide)

/-- C1 counterexample: a record with a 1-byte integer key saved into a
table whose largest key is 127 gets the store-assigned key 128, which
is truncated to the single byte `0x80` when written back; the fresh
instance holding that key byte re-encodes it sign-extended as -128, so
the SELECT by key matches no row and the retrieve fails instead of
yielding a field-for-field equal instance. -/
theorem C1_counterexample :
    (saveEntity ⟨[("t", [[.intV 127, .intV 1]])]⟩
        ⟨"t", [⟨"id", "", .intF [0]⟩, ⟨"v", "", .intF [5]⟩]⟩).res = .ok () ∧
    (saveEntity ⟨[("t", [[.intV 127, .intV 1]])]⟩
        ⟨"t", [⟨"id", "", .intF [0]⟩, ⟨"v", "", .intF [5]⟩]⟩).record
      = ⟨"t", [⟨"id", "", .intF [128]⟩, ⟨"v", "", .intF [5]⟩]⟩ ∧
    (retrieveEntity
        (saveEntity ⟨[("t", [[.intV 127, .intV 1]])]⟩
          ⟨"t", [⟨"id", "", .intF [0]⟩, ⟨"v", "", .intF [5]⟩]⟩).db
        ⟨"t", [⟨"id", "", .intF [128]⟩, ⟨"v", "", .intF [0]⟩]⟩).res
      = .error (.assertFail "rc == SQLITE_ROW") ∧
    (retrieveEntity
        (saveEntity ⟨[("t", [[.intV 127, .intV 1]])]⟩
          ⟨"t", [⟨"id", "", .intF [0]⟩, ⟨"v", "", .intF [5]⟩]⟩).db
        ⟨"t", [⟨"id", "", .intF [128]⟩, ⟨"v", "", .intF [0]⟩]⟩).record
      = ⟨"t", [⟨"id", "", .intF [128]⟩, ⟨"v", "", .intF [0]⟩]⟩ :=
  ⟨rfl, rfl, rfl, rfl⟩

/-! ## Round-trip machinery for C1 -/

theorem sameShape_refl (c : FieldContent) : c.sameShape c := by
  cases c <;> simp [FieldContent.sameShape]

/-- Field-for-field compatibility of a fresh instance with the record
type: same names, same declared foreign tables, same content shapes. -/
def fieldShapeEq (g f : Field) : Prop :=
  g.name = f.name ∧ g.foreignKey = f.foreignKey ∧ f.content.sameShape g.content

/-- A fresh (default-constructed) instance of the same record type. -/
def freshOf (fresh r : Record) : Prop :=
  fresh.tableName = r.tableName ∧ List.Forall₂ fieldShapeEq fresh.fields r.fields

/-- Byte width of the key field. -/
def Record.keyWidth (r : Record) : Nat :=
  match r.fields.head? with
  | some f => f.content.size
  | none => 0

theorem forall2_names_eq (gs fs : List Field)
    (h : List.Forall₂ fieldShapeEq gs fs) :
    gs.map Field.name = fs.map Field.name := by
  induction h with
  | nil => rfl
  | cons hp _ ih =>
    simp only [List.map_cons, ih]
    rw [hp.1]

theorem map_congr_mem {α β : Type} (l : List α) (f g : α → β)
    (h : ∀ x ∈ l, f x = g x) : l.map f = l.map g := by
  induction l with
  | nil => rfl
  | cons a tl ih =>
    simp only [List.map_cons, h a (by simp)]
    rw [ih fun x hx => h x (by simp [hx])]

/-- Decoding the bound value of an encoded field back into a same-shape
field restores the field exactly. -/
theorem fillUpd_encode (g f : Field) (hname : g.name = f.name)
    (hfk : g.foreignKey = f.foreignKey) (hs : f.content.sameShape g.content)
    (hwf : f.content.wf) :
    fillUpd g (bindStmtParameter (encodeField f)) = f := by
  unfold fillUpd
  have hdt : g.content.dtype = f.content.dtype := (sameShape_dtype hs).symm
  rw [hdt]
  have hb : bindStmtParameter (encodeField f)
      = bindStmtParameter (encodeField ⟨"x", "", f.content⟩) :=
    bind_encode_content f.name f.foreignKey f.content
  rw [hb, content_roundtrip f.content g.content hwf hs]
  cases f with
  | mk fn ffk fc =>
    simp only at hname hfk
    rw [hname, hfk]

theorem fill_fields_eq (gt ft : List Field)
    (hforall : List.Forall₂ fieldShapeEq gt ft)
    (hwf : ∀ f ∈ ft, f.content.wf) :
    List.zipWith fillUpd gt (ft.map fun f => bindStmtParameter (encodeField f)) = ft := by
  induction hforall with
  | nil => rfl
  | cons hp htail ih =>
    simp only [List.map_cons, List.zipWith_cons_cons]
    rw [fillUpd_encode _ _ hp.1 hp.2.1 hp.2.2 (hwf _ (by simp)),
      ih fun f hf => hwf f (by simp [hf])]

theorem dtype_int_cases (c : FieldContent) (h : c.dtype = DB_INTEGER) :
    ∃ bs, c = .intF bs := by
  cases c with
  | intF bs => exact ⟨bs, rfl⟩
  | floatF _ => simp [FieldContent.dtype] at h
  | cstrF _ => simp [FieldContent.dtype] at h
  | strF _ => simp [FieldContent.dtype] at h
  | timeF _ => simp [FieldContent.dtype] at h

/-- C1 (amended): saving a well-formed record and then retrieving into
a fresh instance of the same type whose key field holds the record's
(possibly store-assigned) key yields the saved record back,
field for field — provided that, when the key was store-assigned, the
assigned rowid is representable in the key field's signed byte width
(always the case for an 8-byte key field; the counterexample shows the
unamended claim fails when the rowid overflows a narrower key). -/
theorem C1_roundtrip_amended (db : Store) (r fresh : Record)
    (hwf : r.wf)
    (hok : (saveEntity db r).res = .ok ())
    (hfresh : freshOf fresh r)
    (hkey : fresh.fields.head?.map Field.content
      = ((saveEntity db r).record.fields.head?).map Field.content)
    (hfit : autoKeyB r.getValues = true →
      ∀ rs, db.rows r.tableName = some rs →
        maxKey rs + 1 < 2 ^ (8 * r.keyWidth - 1)) :
    (retrieveEntity (saveEntity db r).db fresh).res = .ok () ∧
    (retrieveEntity (saveEntity db r).db fresh).record = (saveEntity db r).record := by
  obtain ⟨hlen2, hnd, hcwf⟩ := hwf
  obtain ⟨htblf, hshape⟩ := hfresh
  cases hf : r.fields with
  | nil =>
    rw [hf] at hlen2
    simp at hlen2
  | cons f0 ft =>
  rw [hf] at hnd hlen2
  simp only [List.length_cons] at hlen2
  simp only [List.map_cons, List.nodup_cons] at hnd
  have hcwf0 : f0.content.wf := hcwf f0 (by rw [hf]; simp)
  have hcwft : ∀ f ∈ ft, f.content.wf := fun f hmem => hcwf f (by rw [hf]; simp [hmem])
  have hlen1 : ¬ (r.schema.length ≤ 1) := by
    unfold Record.schema
    rw [hf]
    simp only [List.map_cons, List.length_cons, List.length_map]
    omega
  have hvals : r.getValues = encodeField f0 :: ft.map encodeField := getValues_cons r f0 ft hf
  have hkeyname : r.keyName = f0.name := by
    unfold Record.keyName Record.schema
    rw [hf]
    rfl
  cases hins : sqliteInsert db r.tableName r.schema (bindStmtParameters r.getValues false) with
  | error e =>
    unfold saveEntity at hok
    rw [if_neg hlen1] at hok
    simp only [hins] at hok
    simp at hok
  | ok p =>
  obtain ⟨db2, rowid⟩ := p
  cases hrows : db.rows r.tableName with
  | none =>
    unfold sqliteInsert at hins
    simp only [hrows] at hins
    simp at hins
  | some rs =>
  have hins' := hins
  rw [schema_cons r f0 ft hf] at hins'
  obtain ⟨keyVal, hkeyres, hfkcols, hout⟩ :=
    sqliteInsert_ok_inv db r.tableName f0.toSchema (ft.map Field.toSchema) _ rs
      (db2, rowid) hrows hins'
  rw [Prod.mk.injEq] at hout
  obtain ⟨hdb2eq, hrowid⟩ := hout
  have hdbsave : (saveEntity db r).db = db2 := by
    unfold saveEntity
    rw [if_neg hlen1]
    simp only [hins]
    split <;> rfl
  have hdb2rows : db2.rows fresh.tableName
      = some (rs ++ [keyVal :: (ft.map Field.toSchema).map fun c =>
          ((bindStmtParameters r.getValues false).lookup c.name).getD .nullV]) := by
    rw [htblf, hdb2eq]
    exact rows_setRows_self db r.tableName _ (by rw [hrows]; rfl)
  -- fresh decomposition
  cases hg : fresh.fields with
  | nil =>
    rw [hg, hf] at hshape
    cases hshape
  | cons g0 gt =>
  rw [hg, hf] at hshape
  obtain ⟨hp0, hptail⟩ := List.forall₂_cons.mp hshape
  have hlengt : gt.length = ft.length := hptail.length_eq
  have hfreshlen1 : ¬ (fresh.schema.length ≤ 1) := by
    unfold Record.schema
    rw [hg]
    simp only [List.map_cons, List.length_cons, List.length_map]
    omega
  have hfresheta : fresh = ⟨fresh.tableName, g0 :: gt⟩ := by
    rw [← hg]
  have hfreshnd : ((g0 :: gt).map Field.name).Nodup := by
    rw [forall2_names_eq _ _ hshape]
    simp only [List.map_cons, List.nodup_cons]
    exact hnd
  cases hauto : autoKeyB r.getValues with
  | false =>
    -- explicit key: the record is not modified by the save
    have hbinds : bindStmtParameters r.getValues false
        = r.getValues.map fun v => (v.name, bindStmtParameter v) :=
      bindStmtParameters_explicit _ hauto
    have hlookup0 : (bindStmtParameters r.getValues false).lookup f0.toSchema.name
        = some (bindStmtParameter (encodeField f0)) := by
      rw [hbinds, hvals, show f0.toSchema.name = f0.name from rfl, lookup_bind_head]
    obtain ⟨hkv, hnodup⟩ :=
      insertKeyRes_some_inv db rs f0.toSchema _ _ keyVal hlookup0 hkeyres
    have hsaved : (saveEntity db r).record = r := by
      unfold saveEntity
      rw [if_neg hlen1]
      simp [hins, hauto]
    have hkeyc : g0.content = f0.content := by
      rw [hsaved, hg, hf] at hkey
      simpa using hkey
    have hfreshbind : fresh.keyBindVal = bindStmtParameter (encodeField f0) := by
      unfold Record.keyBindVal
      rw [getValues_cons fresh g0 gt hg]
      simp only [List.head?_cons]
      rw [show bindStmtParameter (encodeField g0)
          = bindStmtParameter (encodeField ⟨"x", "", g0.content⟩) from
        bind_encode_content g0.name g0.foreignKey g0.content, hkeyc]
      exact (bind_encode_content f0.name f0.foreignKey f0.content).symm
    have hkb : fresh.keyBindVal = keyVal := by
      rw [hfreshbind, hkv]
    rw [← hfreshbind] at hnodup
    have hfind : (rs ++ [keyVal :: (ft.map Field.toSchema).map fun c =>
          ((bindStmtParameters r.getValues false).lookup c.name).getD .nullV]).find?
            (fun row => decide (row.head? = some fresh.keyBindVal))
        = some (keyVal :: (ft.map Field.toSchema).map fun c =>
          ((bindStmtParameters r.getValues false).lookup c.name).getD .nullV) := by
      rw [find?_append_of_none]
      · simp only [List.find?]
        rw [hkb]
        simp
      · intro x hx
        have hfalse := List.any_eq_false.mp hnodup x hx
        simpa using hfalse
    have htailvals : ((ft.map Field.toSchema).map fun c =>
          ((bindStmtParameters r.getValues false).lookup c.name).getD .nullV)
        = ft.map fun f2 => bindStmtParameter (encodeField f2) := by
      rw [List.map_map]
      apply map_congr_mem
      intro f2 hf2
      have hlk : (bindStmtParameters r.getValues false).lookup f2.name
          = some (bindStmtParameter (encodeField f2)) := by
        rw [hbinds, hvals]
        exact lookup_map_bind_mem (encodeField f0 :: ft.map encodeField)
          (by simp only [List.map_cons, List.nodup_cons, map_encodeField_names ft]
              exact ⟨hnd.1, hnd.2⟩)
          (encodeField f2) (List.mem_cons_of_mem _ (List.mem_map_of_mem encodeField hf2))
      show ((bindStmtParameters r.getValues false).lookup f2.name).getD .nullV = _
      rw [hlk]
      rfl
    have hfill : fillEntity fresh (keyVal :: (ft.map Field.toSchema).map fun c =>
          ((bindStmtParameters r.getValues false).lookup c.name).getD .nullV) = r := by
      rw [hfresheta, htailvals,
        fillEntity_spec fresh.tableName (g0 :: gt) _
          (by simp [hlengt, List.length_map])
          hfreshnd]
      simp only [List.zipWith_cons_cons]
      rw [hkv, fillUpd_encode g0 f0 hp0.1 hp0.2.1 hp0.2.2 hcwf0,
        fill_fields_eq gt ft hptail hcwft]
      rw [htblf, ← hf]
    refine ⟨?_, ?_⟩
    · rw [hdbsave]
      unfold retrieveEntity
      rw [if_neg hfreshlen1]
      simp only [hdb2rows, hfind]
    · rw [hdbsave, hsaved]
      unfold retrieveEntity
      rw [if_neg hfreshlen1]
      simp only [hdb2rows, hfind]
      exact hfill
  | true =>
    -- auto-assigned key: the rowid was written back, truncated
    have hbinds : bindStmtParameters r.getValues false
        = (r.getValues.drop 1).map fun v => (v.name, bindStmtParameter v) :=
      bindStmtParameters_auto _ hauto
    have hlookupnone : (bindStmtParameters r.getValues false).lookup f0.toSchema.name
        = none := by
      rw [hbinds, hvals]
      simp only [List.drop_succ_cons, List.drop_zero]
      rw [show f0.toSchema.name = f0.name from rfl, lookup_map_bind_none]
      rw [map_encodeField_names]
      exact hnd.1
    obtain ⟨htype0, hfk0, hkv⟩ :=
      insertKeyRes_none_inv db rs f0.toSchema _ keyVal hlookupnone hkeyres
    obtain ⟨bs0, hbs0⟩ := dtype_int_cases f0.content htype0
    obtain ⟨hw1, hw8, hblt⟩ := by
      rw [hbs0] at hcwf0
      exact hcwf0
    have hkk0 : 0 ≤ maxKey rs := maxKey_nonneg rs
    have hwidth : r.keyWidth = bs0.length := by
      unfold Record.keyWidth
      rw [hf]
      simp only [List.head?_cons]
      rw [hbs0]
      rfl
    have hfit2 : maxKey rs + 1 < 2 ^ (8 * bs0.length - 1) := by
      rw [← hwidth]
      exact hfit hauto rs hrows
    have hrowid2 : rowid = maxKey rs + 1 := by
      rw [hkv] at hrowid
      exact hrowid
    have hkvr : keyVal = SqlVal.intV rowid := by
      rw [hkv, hrowid2]
    have hsaved : (saveEntity db r).record = r.setValue r.keyName (.i64 rowid) := by
      unfold saveEntity
      rw [if_neg hlen1]
      simp [hins, hauto]
    have hsetfields : (r.setValue r.keyName (SetVal.i64 rowid)).fields
        = ⟨f0.name, f0.foreignKey,
            FieldContent.intF ((int64ToBytes rowid).take bs0.length)⟩ :: ft := by
      unfold Record.setValue
      simp only
      rw [hf, hkeyname]
      simp only [setFields, if_pos rfl]
      rw [hbs0]
      rfl
    have hkeyc : g0.content
        = FieldContent.intF ((int64ToBytes rowid).take bs0.length) := by
      rw [hsaved, hg, hsetfields] at hkey
      simpa using hkey
    have htakelen : ((int64ToBytes rowid).take bs0.length).length = bs0.length := by
      rw [List.length_take]
      unfold int64ToBytes
      rw [natToBytes_length]
      omega
    have hfreshbind : fresh.keyBindVal = .intV rowid := by
      unfold Record.keyBindVal
      rw [getValues_cons fresh g0 gt hg]
      simp only [List.head?_cons]
      unfold bindStmtParameter encodeField DbValue.int64 encodeContent
      rw [hkeyc]
      simp only [FieldContent.dtype]
      rw [encode_take_roundtrip rowid bs0.length hw1 hw8 (by omega)
        (by rw [hrowid2]; exact hfit2)]
    have hnomatch : ∀ x ∈ rs, decide (x.head? = some fresh.keyBindVal) = false := by
      intro x hx
      rw [hfreshbind]
      simp only [decide_eq_false_iff_not]
      intro hcon
      cases hhead : x.head? with
      | none => rw [hhead] at hcon; cases hcon
      | some sv =>
        rw [hhead] at hcon
        cases sv with
        | intV j =>
          have hle : j ≤ maxKey rs := maxKey_ge rs x j hx hhead
          have : j = rowid := by
            injection hcon with h2
            injection h2
          omega
        | floatV bits => simp at hcon
        | textV s => simp at hcon
        | nullV => simp at hcon
    have hfind : (rs ++ [keyVal :: (ft.map Field.toSchema).map fun c =>
          ((bindStmtParameters r.getValues false).lookup c.name).getD .nullV]).find?
            (fun row => decide (row.head? = some fresh.keyBindVal))
        = some (keyVal :: (ft.map Field.toSchema).map fun c =>
          ((bindStmtParameters r.getValues false).lookup c.name).getD .nullV) := by
      rw [find?_append_of_none _ _ _ hnomatch]
      simp only [List.find?]
      rw [hfreshbind, hkvr]
      simp
    have htailvals : ((ft.map Field.toSchema).map fun c =>
          ((bindStmtParameters r.getValues false).lookup c.name).getD .nullV)
        = ft.map fun f2 => bindStmtParameter (encodeField f2) := by
      rw [List.map_map]
      apply map_congr_mem
      intro f2 hf2
      have hlk : (bindStmtParameters r.getValues false).lookup f2.name
          = some (bindStmtParameter (encodeField f2)) := by
        rw [hbinds, hvals]
        simp only [List.drop_succ_cons, List.drop_zero]
        exact lookup_map_bind_mem (ft.map encodeField)
          (by rw [map_encodeField_names]; exact hnd.2)
          (encodeField f2) (List.mem_map_of_mem encodeField hf2)
      show ((bindStmtParameters r.getValues false).lookup f2.name).getD .nullV = _
      rw [hlk]
      rfl
    have hfillhead : fillUpd g0 keyVal
        = ⟨f0.name, f0.foreignKey,
            FieldContent.intF ((int64ToBytes rowid).take bs0.length)⟩ := by
      unfold fillUpd
      rw [hkeyc, hkvr]
      simp only [FieldContent.dtype, columnToSet, applySet]
      rw [htakelen]
      have hgname : g0.name = f0.name := hp0.1
      have hgfk : g0.foreignKey = f0.foreignKey := hp0.2.1
      cases g0 with
      | mk gn gfk gc =>
        simp only at hgname hgfk
        rw [hgname, hgfk]
    have hfill : fillEntity fresh (keyVal :: (ft.map Field.toSchema).map fun c =>
          ((bindStmtParameters r.getValues false).lookup c.name).getD .nullV)
        = (saveEntity db r).record := by
      rw [hfresheta, htailvals,
        fillEntity_spec fresh.tableName (g0 :: gt) _
          (by simp [hlengt, List.length_map])
          hfreshnd]
      simp only [List.zipWith_cons_cons]
      rw [hfillhead, fill_fields_eq gt ft hptail hcwft]
      rw [hsaved]
      have hsetname : (r.setValue r.keyName (SetVal.i64 rowid)).tableName
          = r.tableName := rfl
      have : (r.setValue r.keyName (SetVal.i64 rowid))
          = ⟨r.tableName, (r.setValue r.keyName (SetVal.i64 rowid)).fields⟩ := rfl
      rw [this, hsetfields, ← htblf]
    refine ⟨?_, ?_⟩
    · rw [hdbsave]
      unfold retrieveEntity
      rw [if_neg hfreshlen1]
      simp only [hdb2rows, hfind]
    · rw [hdbsave]
      unfold retrieveEntity
      rw [if_neg hfreshlen1]
      simp only [hdb2rows, hfind]
      exact hfill

theorem C1_roundtrip_amended_witness :
    (retrieveEntity
        (saveEntity ⟨[("t", [])]⟩
          ⟨"t", [⟨"id", "", .intF [0, 0, 0, 0, 0, 0, 0, 0]⟩, ⟨"v", "", .intF [7]⟩]⟩).db
        ⟨"t", [⟨"id", "", .intF [1, 0, 0, 0, 0, 0, 0, 0]⟩, ⟨"v", "", .intF [0]⟩]⟩).res
      = .ok () ∧
    (retrieveEntity
        (saveEntity ⟨[("t", [])]⟩
          ⟨"t", [⟨"id", "", .intF [0, 0, 0, 0, 0, 0, 0, 0]⟩, ⟨"v", "", .intF [7]⟩]⟩).db
        ⟨"t", [⟨"id", "", .intF [1, 0, 0, 0, 0, 0, 0, 0]⟩, ⟨"v", "", .intF [0]⟩]⟩).record
      = (saveEntity ⟨[("t", [])]⟩
          ⟨"t", [⟨"id", "", .intF [0, 0, 0, 0, 0, 0, 0, 0]⟩, ⟨"v", "", .intF [7]⟩]⟩).record :=
  C1_roundtrip_amended ⟨[("t", [])]⟩
    ⟨"t", [⟨"id", "", .intF [0, 0, 0, 0, 0, 0, 0, 0]⟩, ⟨"v", "", .intF [7]⟩]⟩
    ⟨"t", [⟨"id", "", .intF [1, 0, 0, 0, 0, 0, 0, 0]⟩, ⟨"v", "", .intF [0]⟩]⟩
    (by decide)
    rfl
    ⟨rfl, .cons ⟨rfl, rfl, by decide⟩ (.cons ⟨rfl, rfl, by decide⟩ .nil)⟩
    rfl
    (by
      intro _h rs hrs
      have hrs2 : rs = [] := by
        have h2 : some ([] : List (List SqlVal)) = some rs := by
          rw [← hrs]
          rfl
        injection h2 with h3
        exact h3.symm
      subst hrs2
      decide)

end Storm
